import Mathlib

/-!
Verification of the memory-hierarchy timing core of the mips-mem-sim
repository.  The definitions below are a shallow embedding of the C++
sources: `src/dram.cpp` / `src/dram.h` (banked DRAM controller with
FR-FCFS scheduling and bus reservation), `src/mshr.cpp` / `src/mshr.h`
(the MSHR manager of the single-core variant), and `src/cache.cpp`
(the multi-core MESI cache hierarchy: base `Cache`, `L1Cache`,
`L2Cache`).  Machine integers are modelled as `Nat` (all the quantities
involved are non-negative and never overflow 32/64 bits in the modelled
operations); the C++ sentinel `-1` of signed fields is modelled by
`Int`, and the sentinel `-1` stored into the unsigned `ready_cycle`
field is modelled by its 64-bit wrap-around value.  The sparse
`std::map<uint64_t,bool>` bus-reservation tables are modelled by lists
of reserved cycle numbers (only membership is ever consulted).
-/

namespace MemSim

namespace DRAM

/-- Timing constant `DRAM_CMD_BUS_OCCUPANCY` from dram.h. -/
def DRAM_CMD_BUS_OCCUPANCY : Nat := 4

/-- Timing constant `DRAM_BANK_BUSY_DELAY` from dram.h. -/
def DRAM_BANK_BUSY_DELAY : Nat := 100

/-- Timing constant `DRAM_DATA_DELAY` from dram.h. -/
def DRAM_DATA_DELAY : Nat := 100

/-- Timing constant `DRAM_DATA_BUS_OCCUPANCY` from dram.h. -/
def DRAM_DATA_BUS_OCCUPANCY : Nat := 50

/-- Number of banks, `DRAM_NUM_BANKS` from dram.h. -/
def DRAM_NUM_BANKS : Nat := 8

/-- `struct DRAM_Request` from dram.h. -/
structure Request where
  req_id : Nat
  address : Nat
  entry_cycle : Nat
  is_write : Bool
  is_instruction_fetch : Bool
  scheduled : Bool
  completion_cycle : Nat
  row_index : Nat
  bank_index : Nat
deriving DecidableEq, Repr

/-- `struct Bank` from dram.h: `active_row` is -1 when the row is closed. -/
structure Bank where
  active_row : Int
  busy_until : Nat
deriving DecidableEq, Repr

/-- The `Bank()` default constructor: closed row, never busy. -/
def bankDefault : Bank := { active_row := -1, busy_until := 0 }

/-- The DRAM controller state (fields of `class DRAM_Controller`). -/
structure Controller where
  banks : List Bank
  request_queue : List Request
  cmd_bus_reserved : List Nat
  data_bus_reserved : List Nat
deriving DecidableEq, Repr

/-- `DRAM_Controller::decode_address`: bank index = bits [7:5], row index =
bits [31:16]. -/
def decode_address (address : Nat) : Nat × Nat :=
  (((address >>> 16) &&& 0xFFFF), ((address >>> 5) &&& 0x7))

/-- `DRAM_Controller::enqueue_request` (the request it appends to the queue;
`req_id` is supplied by the caller in place of the static counter). -/
def enqueue_request (ctrl : Controller) (now : Nat) (rid : Nat)
    (address : Nat) (is_write : Bool) (is_inst_fetch : Bool) : Controller :=
  let rb := decode_address address
  let req : Request :=
    { req_id := rid
      address := address
      entry_cycle := now
      is_write := is_write
      is_instruction_fetch := is_inst_fetch
      scheduled := false
      completion_cycle := 0
      row_index := rb.1
      bank_index := rb.2 }
  { ctrl with request_queue := ctrl.request_queue ++ [req] }

/-- `DRAM_Controller::check_bus_availability`: the window
`[start, start+duration)` is free iff no cycle of it is in the map. -/
def check_bus_availability (bus : List Nat) (start : Nat) (duration : Nat) : Bool :=
  (List.range duration).all fun i => !(bus.contains (start + i))

/-- `DRAM_Controller::reserve_bus`: mark every cycle of the window busy. -/
def reserve_bus (bus : List Nat) (start : Nat) (duration : Nat) : List Nat :=
  bus ++ (List.range duration).map fun i => start + i

/-- The bank a request maps to (array indexing `banks[req.bank_index]`). -/
def bankOf (banks : List Bank) (req : Request) : Bank :=
  banks.getD req.bank_index bankDefault

/-- The row-buffer-hit test used throughout dram.cpp:
`banks[req.bank_index].active_row == (int32_t)req.row_index`. -/
def rowHit (banks : List Bank) (req : Request) : Bool :=
  (bankOf banks req).active_row == Int.ofNat req.row_index

/-- The row-closed test: `banks[req.bank_index].active_row == -1`. -/
def rowClosed (banks : List Bank) (req : Request) : Bool :=
  (bankOf banks req).active_row == (-1 : Int)

/-- `DRAM_Controller::is_schedulable` from dram.cpp lines 65-127. -/
def is_schedulable (ctrl : Controller) (req : Request) (current_cycle : Nat) : Bool :=
  if current_cycle < (bankOf ctrl.banks req).busy_until then
    false
  else if rowHit ctrl.banks req then
    check_bus_availability ctrl.cmd_bus_reserved current_cycle DRAM_CMD_BUS_OCCUPANCY &&
    check_bus_availability ctrl.data_bus_reserved (current_cycle + DRAM_DATA_DELAY)
      DRAM_DATA_BUS_OCCUPANCY
  else if rowClosed ctrl.banks req then
    check_bus_availability ctrl.cmd_bus_reserved current_cycle DRAM_CMD_BUS_OCCUPANCY &&
    check_bus_availability ctrl.cmd_bus_reserved (current_cycle + DRAM_BANK_BUSY_DELAY)
      DRAM_CMD_BUS_OCCUPANCY &&
    check_bus_availability ctrl.data_bus_reserved
      (current_cycle + DRAM_BANK_BUSY_DELAY + DRAM_DATA_DELAY) DRAM_DATA_BUS_OCCUPANCY
  else
    check_bus_availability ctrl.cmd_bus_reserved current_cycle DRAM_CMD_BUS_OCCUPANCY &&
    check_bus_availability ctrl.cmd_bus_reserved (current_cycle + DRAM_BANK_BUSY_DELAY)
      DRAM_CMD_BUS_OCCUPANCY &&
    check_bus_availability ctrl.cmd_bus_reserved (current_cycle + 2 * DRAM_BANK_BUSY_DELAY)
      DRAM_CMD_BUS_OCCUPANCY &&
    check_bus_availability ctrl.data_bus_reserved
      (current_cycle + 2 * DRAM_BANK_BUSY_DELAY + DRAM_DATA_DELAY) DRAM_DATA_BUS_OCCUPANCY

/-- `DRAM_Controller::schedule_request` from dram.cpp lines 129-193.
Returns the updated controller state together with the updated request
(the C++ mutates the queue element through a reference). -/
def schedule_request (ctrl : Controller) (req : Request) (current_cycle : Nat) :
    Controller × Request :=
  let bank := bankOf ctrl.banks req
  if rowHit ctrl.banks req then
    let data_start_cycle := current_cycle + DRAM_DATA_DELAY
    ({ ctrl with
        cmd_bus_reserved :=
          reserve_bus ctrl.cmd_bus_reserved current_cycle DRAM_CMD_BUS_OCCUPANCY
        banks := ctrl.banks.set req.bank_index
          { bank with busy_until := current_cycle + DRAM_BANK_BUSY_DELAY }
        data_bus_reserved :=
          reserve_bus ctrl.data_bus_reserved data_start_cycle DRAM_DATA_BUS_OCCUPANCY },
     { req with
        scheduled := true
        completion_cycle := data_start_cycle + DRAM_DATA_BUS_OCCUPANCY })
  else if rowClosed ctrl.banks req then
    let data_start_cycle := current_cycle + DRAM_BANK_BUSY_DELAY + DRAM_DATA_DELAY
    ({ ctrl with
        cmd_bus_reserved :=
          reserve_bus
            (reserve_bus ctrl.cmd_bus_reserved current_cycle DRAM_CMD_BUS_OCCUPANCY)
            (current_cycle + DRAM_BANK_BUSY_DELAY) DRAM_CMD_BUS_OCCUPANCY
        banks := ctrl.banks.set req.bank_index
          { bank with
              active_row := Int.ofNat req.row_index
              busy_until := current_cycle + 2 * DRAM_BANK_BUSY_DELAY }
        data_bus_reserved :=
          reserve_bus ctrl.data_bus_reserved data_start_cycle DRAM_DATA_BUS_OCCUPANCY },
     { req with
        scheduled := true
        completion_cycle := data_start_cycle + DRAM_DATA_BUS_OCCUPANCY })
  else
    let data_start_cycle := current_cycle + 2 * DRAM_BANK_BUSY_DELAY + DRAM_DATA_DELAY
    ({ ctrl with
        cmd_bus_reserved :=
          reserve_bus
            (reserve_bus
              (reserve_bus ctrl.cmd_bus_reserved current_cycle DRAM_CMD_BUS_OCCUPANCY)
              (current_cycle + DRAM_BANK_BUSY_DELAY) DRAM_CMD_BUS_OCCUPANCY)
            (current_cycle + 2 * DRAM_BANK_BUSY_DELAY) DRAM_CMD_BUS_OCCUPANCY
        banks := ctrl.banks.set req.bank_index
          { bank with
              active_row := Int.ofNat req.row_index
              busy_until := current_cycle + 3 * DRAM_BANK_BUSY_DELAY }
        data_bus_reserved :=
          reserve_bus ctrl.data_bus_reserved data_start_cycle DRAM_DATA_BUS_OCCUPANCY },
     { req with
        scheduled := true
        completion_cycle := data_start_cycle + DRAM_DATA_BUS_OCCUPANCY })

/-- The completion test of the first loop of `DRAM_Controller::process_cycle`:
`it->scheduled && it->completion_cycle <= stat_cycles`. -/
def isCompleted (req : Request) (now : Nat) : Bool :=
  req.scheduled && decide (req.completion_cycle ≤ now)

/-- The completion callbacks delivered in one call of `process_cycle`
(one `mshr_manager->dram_complete(it->address)` per completed request,
in queue order). -/
def completion_callbacks (queue : List Request) (now : Nat) : List Nat :=
  (queue.filter fun r => isCompleted r now).map fun r => r.address

/-- The queue remaining after the completion loop has erased the
completed requests. -/
def drain_completed (queue : List Request) (now : Nat) : List Request :=
  queue.filter fun r => !(isCompleted r now)

/-- The candidate-replacement decision inside the FR-FCFS scan of
`process_cycle` (dram.cpp lines 233-258): `cur` replaces `best` iff `cur`
is a row-buffer hit and `best` is not, or they tie on hit status and
arrival cycle and `cur` comes from the memory stage while `best` is an
instruction fetch.  (The arrival-time branch of the C++ is empty: queue
order already realises FIFO.) -/
def replaces (banks : List Bank) (best cur : Request) : Bool :=
  if rowHit banks cur && !(rowHit banks best) then true
  else if rowHit banks best && !(rowHit banks cur) then false
  else if cur.entry_cycle == best.entry_cycle then
    !cur.is_instruction_fetch && best.is_instruction_fetch
  else false

/-- One step of the FR-FCFS scan: skip already-scheduled requests, keep
the first schedulable candidate, replace it per `replaces`. -/
def pickStep (ctrl : Controller) (now : Nat)
    (acc : Option (Nat × Request)) (ir : Nat × Request) : Option (Nat × Request) :=
  if ir.2.scheduled then acc
  else if is_schedulable ctrl ir.2 now then
    match acc with
    | none => some ir
    | some jb => if replaces ctrl.banks jb.2 ir.2 then some ir else some jb
  else acc

/-- The `best_req` selection loop of `process_cycle` (dram.cpp lines
224-261), returning the queue position and value of the chosen request. -/
def pickBest (ctrl : Controller) (now : Nat) : Option (Nat × Request) :=
  ctrl.request_queue.enum.foldl (pickStep ctrl now) none

/-- The scheduling step of `process_cycle`: schedule the chosen request
(if any), updating it in place in the queue. -/
def schedulePass (ctrl : Controller) (now : Nat) : Controller :=
  match pickBest ctrl now with
  | none => ctrl
  | some ir =>
    let cr := schedule_request ctrl ir.2 now
    { cr.1 with request_queue := ctrl.request_queue.set ir.1 cr.2 }

/-- The periodic garbage collection of a reservation map: keys strictly
below the current cycle are erased. -/
def gc_reservations (bus : List Nat) (now : Nat) : List Nat :=
  bus.filter fun c => decide (now ≤ c)

/-- `DRAM_Controller::process_cycle` from dram.cpp lines 195-279: drain
completed requests (delivering one callback each), schedule the best
schedulable candidate, garbage-collect stale reservations every 1000
cycles.  Returns the list of delivered callbacks and the new state. -/
def process_cycle (ctrl : Controller) (now : Nat) : List Nat × Controller :=
  let callbacks := completion_callbacks ctrl.request_queue now
  let c1 : Controller :=
    { ctrl with request_queue := drain_completed ctrl.request_queue now }
  let c2 := schedulePass c1 now
  let c3 : Controller :=
    if now % 1000 == 0 then
      { c2 with
          cmd_bus_reserved := gc_reservations c2.cmd_bus_reserved now
          data_bus_reserved := gc_reservations c2.data_bus_reserved now }
    else c2
  (callbacks, c3)

/-! Claim C2: schedulability. -/

/-- A bus window of `duration` cycles starting at `start` is clear of the
existing reservations (the property the spec calls a window being
"clear against the existing bus reservations"). -/
def windowClear (bus : List Nat) (start : Nat) (duration : Nat) : Prop :=
  ∀ c, start ≤ c → c < start + duration → c ∉ bus

/-- `check_bus_availability` decides exactly the `windowClear` property. -/
theorem check_bus_availability_iff (bus : List Nat) (start duration : Nat) :
    check_bus_availability bus start duration = true ↔ windowClear bus start duration := by
  unfold check_bus_availability windowClear
  rw [List.all_eq_true]
  constructor
  · intro h c h1 h2 hmem
    have h3 : c - start < duration := by omega
    have h4 := h (c - start) (List.mem_range.mpr h3)
    rw [show start + (c - start) = c by omega] at h4
    simp at h4
    exact h4 hmem
  · intro h i hi
    have h1 := h (start + i) (Nat.le_add_right start i)
      (by have := List.mem_range.mp hi; omega)
    simp [h1]

/-- Statement of claim C2 in the spec's words: a request is schedulable at
cycle `t` iff its bank is free at `t` and every command-bus window it
needs (4 cycles per command, at offsets 0, 100 and 200 from `t`
according to row hit / row closed / row conflict) and its 50-cycle
data-bus window are all clear against the existing reservations. -/
def schedulableSpec (ctrl : Controller) (req : Request) (t : Nat) : Prop :=
  (bankOf ctrl.banks req).busy_until ≤ t ∧
  (if rowHit ctrl.banks req then
    windowClear ctrl.cmd_bus_reserved t 4 ∧
    windowClear ctrl.data_bus_reserved (t + 100) 50
  else if rowClosed ctrl.banks req then
    windowClear ctrl.cmd_bus_reserved t 4 ∧
    windowClear ctrl.cmd_bus_reserved (t + 100) 4 ∧
    windowClear ctrl.data_bus_reserved (t + 200) 50
  else
    windowClear ctrl.cmd_bus_reserved t 4 ∧
    windowClear ctrl.cmd_bus_reserved (t + 100) 4 ∧
    windowClear ctrl.cmd_bus_reserved (t + 200) 4 ∧
    windowClear ctrl.data_bus_reserved (t + 300) 50)

/-- C2: for every pending DRAM request and every cycle `t`, the request is
schedulable at `t` (in the sense of `DRAM_Controller::is_schedulable`)
iff its bank is free at `t` (`t ≥ busy_until`) and every command-bus
window it needs (4 cycles per command, at offsets 0, 100 and 200 from
`t` according to whether the access is a row hit, row closed or row
conflict) and its 50-cycle data-bus window are all clear against the
existing bus reservations. -/
theorem is_schedulable_iff_spec (ctrl : Controller) (req : Request) (t : Nat) :
    is_schedulable ctrl req t = true ↔ schedulableSpec ctrl req t := by
  unfold is_schedulable schedulableSpec
  unfold DRAM_CMD_BUS_OCCUPANCY DRAM_BANK_BUSY_DELAY DRAM_DATA_DELAY DRAM_DATA_BUS_OCCUPANCY
  by_cases hbusy : t < (bankOf ctrl.banks req).busy_until
  · simp [hbusy]
  · simp only [if_neg hbusy]
    have hb : (bankOf ctrl.banks req).busy_until ≤ t := by omega
    by_cases hhit : rowHit ctrl.banks req
    · simp [hhit, hb, Bool.and_eq_true, check_bus_availability_iff]
    · by_cases hclosed : rowClosed ctrl.banks req
      · simp [hhit, hclosed, hb, Bool.and_eq_true, check_bus_availability_iff, and_assoc]
      · simp [hhit, hclosed, hb, Bool.and_eq_true, check_bus_availability_iff, and_assoc]

/-! Claim C4: scheduling effects and completion cycle. -/

/-- Membership in a bus map after `reserve_bus`: the old reservations plus
exactly the window `[start, start+duration)`. -/
theorem mem_reserve_bus (bus : List Nat) (start duration c : Nat) :
    c ∈ reserve_bus bus start duration ↔
      c ∈ bus ∨ (start ≤ c ∧ c < start + duration) := by
  unfold reserve_bus
  simp only [List.mem_append, List.mem_map, List.mem_range]
  constructor
  · rintro (h | ⟨i, hi, rfl⟩)
    · exact Or.inl h
    · exact Or.inr (by omega)
  · rintro (h | h)
    · exact Or.inl h
    · exact Or.inr ⟨c - start, by omega, by omega⟩

/-- The data-bus start cycle of a request scheduled at `t`: `t + 100` on a
row hit, `t + 200` on a closed row, `t + 300` on a row conflict. -/
def dataStartCycle (banks : List Bank) (req : Request) (t : Nat) : Nat :=
  if rowHit banks req then t + 100
  else if rowClosed banks req then t + 200
  else t + 300

/-- C4 (amended): when a DRAM request is scheduled at cycle `t`, its
data-bus transfer starts at `t+100` for a row hit, `t+200` for a closed
row and `t+300` for a row conflict, occupies the 50 data-bus cycles
`[start, start+50)`, and the recorded `completion_cycle` equals
`start + 50`, i.e. the first cycle after the last data-bus cycle of the
transfer (not the last data-bus cycle itself). -/
theorem schedule_request_timing (ctrl : Controller) (req : Request) (t : Nat) :
    (schedule_request ctrl req t).2.scheduled = true ∧
    (schedule_request ctrl req t).2.completion_cycle =
      dataStartCycle ctrl.banks req t + 50 ∧
    (∀ c, c ∈ (schedule_request ctrl req t).1.data_bus_reserved ↔
      c ∈ ctrl.data_bus_reserved ∨
        (dataStartCycle ctrl.banks req t ≤ c ∧
         c < dataStartCycle ctrl.banks req t + 50)) := by
  unfold schedule_request dataStartCycle
  unfold DRAM_CMD_BUS_OCCUPANCY DRAM_BANK_BUSY_DELAY DRAM_DATA_DELAY DRAM_DATA_BUS_OCCUPANCY
  by_cases hhit : rowHit ctrl.banks req
  · simp [hhit, mem_reserve_bus]
  · by_cases hclosed : rowClosed ctrl.banks req
    · simp [hhit, hclosed, mem_reserve_bus]
    · simp [hhit, hclosed, mem_reserve_bus]

/-- An idle controller: eight closed banks, empty queue, no reservations. -/
def ctrlIdle : Controller :=
  { banks := List.replicate 8 bankDefault
    request_queue := []
    cmd_bus_reserved := []
    data_bus_reserved := [] }

/-- A read request for address 0 (bank 0, row 0) that arrived at cycle 0. -/
def reqZero : Request :=
  { req_id := 0
    address := 0
    entry_cycle := 0
    is_write := false
    is_instruction_fetch := false
    scheduled := false
    completion_cycle := 0
    row_index := 0
    bank_index := 0 }

/-- Counterexample to C4 as stated: scheduling a closed-row request at
cycle 0 reserves the data bus for cycles 200..249 (249 is the last
data-bus cycle of the transfer, 250 is not reserved), yet the recorded
`completion_cycle` is 250, not the last data-bus cycle 249. -/
theorem completion_cycle_not_last_data_cycle :
    (schedule_request ctrlIdle reqZero 0).2.completion_cycle = 250 ∧
    249 ∈ (schedule_request ctrlIdle reqZero 0).1.data_bus_reserved ∧
    250 ∉ (schedule_request ctrlIdle reqZero 0).1.data_bus_reserved ∧
    (250 : Nat) ≠ 249 := by
  refine ⟨by decide, by decide, by decide, by decide⟩

/-! Claim C6: completion callbacks per cycle. -/

/-- Requests already scheduled with completion cycles 5 and 6, both in the
past at cycle 10. -/
def reqDone1 : Request :=
  { reqZero with req_id := 1, scheduled := true, completion_cycle := 5 }

/-- Second completed request (see `reqDone1`). -/
def reqDone2 : Request :=
  { reqZero with req_id := 2, scheduled := true, completion_cycle := 6 }

/-- A controller whose queue holds two completed scheduled requests. -/
def ctrlTwoDone : Controller :=
  { ctrlIdle with request_queue := [reqDone1, reqDone2] }

/-- Counterexample to C6 as stated: when two scheduled requests have both
reached their completion cycle, one call of `process_cycle` delivers a
callback for each of them — two callbacks in a single cycle, not at
most one. -/
theorem two_callbacks_in_one_cycle :
    ((process_cycle ctrlTwoDone 10).1).length = 2 := by decide

/-- Helper for C6: if every scheduled request in the queue has its
completion cycle no earlier than `now`, and scheduled requests have
pairwise distinct completion cycles, then at most one request passes
the completion test of this cycle. -/
theorem filter_completed_length_le_one (now : Nat) :
    ∀ l : List Request,
      (∀ r ∈ l, r.scheduled = true → now ≤ r.completion_cycle) →
      (l.Pairwise fun a b => a.scheduled = true → b.scheduled = true →
        a.completion_cycle ≠ b.completion_cycle) →
      (l.filter fun r => isCompleted r now).length ≤ 1 := by
  intro l
  induction l with
  | nil => intro _ _; simp
  | cons r l ih =>
    intro hdrain hdist
    rw [List.pairwise_cons] at hdist
    by_cases hc : isCompleted r now = true
    · have hcomp : r.completion_cycle = now := by
        have h1 := hdrain r (List.mem_cons_self r l) (by
          unfold isCompleted at hc
          exact (Bool.and_eq_true .. ▸ hc).1)
        have h2 : r.completion_cycle ≤ now := by
          unfold isCompleted at hc
          exact of_decide_eq_true (Bool.and_eq_true .. ▸ hc).2
        omega
      have hnone : ∀ s ∈ l, ¬(isCompleted s now = true) := by
        intro s hs hsc
        unfold isCompleted at hsc
        have hss := (Bool.and_eq_true .. ▸ hsc).1
        have hsle : s.completion_cycle ≤ now :=
          of_decide_eq_true (Bool.and_eq_true .. ▸ hsc).2
        have hsge := hdrain s (List.mem_cons_of_mem r hs) hss
        have hrs : r.scheduled = true := by
          unfold isCompleted at hc
          exact (Bool.and_eq_true .. ▸ hc).1
        exact hdist.1 s hs hrs hss (by omega)
      have : (l.filter fun r => isCompleted r now) = [] := by
        rw [List.filter_eq_nil_iff]
        intro s hs
        simp only [Bool.not_eq_true]
        exact Bool.not_eq_true _ ▸ hnone s hs
      simp [List.filter_cons, hc, this]
    · have : (List.filter (fun r => isCompleted r now) (r :: l)) =
          l.filter fun r => isCompleted r now := by
        simp [List.filter_cons, hc]
      rw [this]
      exact ih (fun s hs => hdrain s (List.mem_cons_of_mem r hs)) hdist.2

/-- C6 (amended): `process_cycle` delivers one completion callback per
completed request; provided every still-pending scheduled request has a
completion cycle no earlier than the current cycle (which per-cycle
draining maintains) and scheduled requests have pairwise distinct
completion cycles (which disjoint data-bus reservations maintain), at
most one completion callback is delivered per cycle. -/
theorem at_most_one_completion_callback (ctrl : Controller) (now : Nat)
    (hdrain : ∀ r ∈ ctrl.request_queue, r.scheduled = true →
      now ≤ r.completion_cycle)
    (hdist : ctrl.request_queue.Pairwise
      (fun a b => a.scheduled = true → b.scheduled = true →
        a.completion_cycle ≠ b.completion_cycle)) :
    ((process_cycle ctrl now).1).length ≤ 1 := by
  show (completion_callbacks ctrl.request_queue now).length ≤ 1
  unfold completion_callbacks
  rw [List.length_map]
  exact filter_completed_length_le_one now ctrl.request_queue hdrain hdist

/-- Witness for C6 (amended) at a concrete state: one scheduled request
completing exactly at the current cycle yields at most one callback. -/
theorem at_most_one_completion_callback_witness :
    ((process_cycle { ctrlIdle with request_queue := [reqDone1] } 5).1).length ≤ 1 :=
  at_most_one_completion_callback { ctrlIdle with request_queue := [reqDone1] } 5
    (by decide) (by decide)

/-! Claim C3: FR-FCFS selection. -/

/-- A request is a scheduling candidate this cycle: not yet issued and
schedulable. -/
def isCandidate (ctrl : Controller) (req : Request) (now : Nat) : Prop :=
  req.scheduled = false ∧ is_schedulable ctrl req now = true

/-- The strict priority order of claim C3: `s` beats `r` iff `s` is a
row-buffer hit and `r` is not, or they tie on hit status and `s` arrived
strictly earlier, or they tie on hit status and arrival and `s` is a
memory-stage request while `r` is an instruction fetch. -/
def priorityBeats (banks : List Bank) (s r : Request) : Prop :=
  (rowHit banks s = true ∧ rowHit banks r = false) ∨
  (rowHit banks s = rowHit banks r ∧ s.entry_cycle < r.entry_cycle) ∨
  (rowHit banks s = rowHit banks r ∧ s.entry_cycle = r.entry_cycle ∧
    s.is_instruction_fetch = false ∧ r.is_instruction_fetch = true)

/-- No request beats itself under the C3 priority order. -/
theorem priorityBeats_irrefl (banks : List Bank) (r : Request) :
    ¬ priorityBeats banks r r := by
  rintro (⟨h1, h2⟩ | ⟨_, h2⟩ | ⟨_, _, h3, h4⟩)
  · rw [h1] at h2; cases h2
  · exact Nat.lt_irrefl _ h2
  · rw [h3] at h4; cases h4

/-- If the scan replaces `b` by `x`, then `x` beats everything `b` beats. -/
theorem replaces_true_mono (banks : List Bank) (b x r : Request)
    (hrep : replaces banks b x = true) (hb : priorityBeats banks b r) :
    priorityBeats banks x r := by
  unfold replaces at hrep
  unfold priorityBeats at hb ⊢
  by_cases he : x.entry_cycle = b.entry_cycle <;>
    cases hxh : rowHit banks x <;> cases hbh : rowHit banks b <;>
    cases hrh : rowHit banks r <;>
    cases hxf : x.is_instruction_fetch <;> cases hbf : b.is_instruction_fetch <;>
    simp_all

/-- If the scan keeps `b` over the later candidate `x` (which arrived no
earlier), then `b` beats everything `x` beats. -/
theorem replaces_false_mono (banks : List Bank) (b x r : Request)
    (hrep : replaces banks b x = false) (hent : b.entry_cycle ≤ x.entry_cycle)
    (hx : priorityBeats banks x r) : priorityBeats banks b r := by
  unfold replaces at hrep
  unfold priorityBeats at hx ⊢
  by_cases he : x.entry_cycle = b.entry_cycle <;>
    cases hxh : rowHit banks x <;> cases hbh : rowHit banks b <;>
    cases hrh : rowHit banks r <;>
    cases hxf : x.is_instruction_fetch <;> cases hbf : b.is_instruction_fetch <;>
    simp_all <;> omega

/-- The second component of an entry of `enumFrom` is a member of the list. -/
theorem snd_mem_of_mem_enumFrom {α : Type} :
    ∀ (l : List α) (n : Nat) (p : Nat × α), p ∈ l.enumFrom n → p.2 ∈ l := by
  intro l
  induction l with
  | nil => intro n p h; simp [List.enumFrom] at h
  | cons a l ih =>
    intro n p h
    simp only [List.enumFrom] at h
    rcases List.mem_cons.mp h with h | h
    · rw [h]; exact List.mem_cons_self a l
    · exact List.mem_cons_of_mem a (ih (n + 1) p h)

/-- `enumFrom` preserves pairwise relations on the underlying elements. -/
theorem pairwise_enumFrom_of_pairwise {α : Type} (R : α → α → Prop) :
    ∀ (l : List α) (n : Nat), l.Pairwise R →
      (l.enumFrom n).Pairwise fun p q => R p.2 q.2 := by
  intro l
  induction l with
  | nil => intro n _; simp [List.enumFrom]
  | cons a l ih =>
    intro n h
    rw [List.pairwise_cons] at h
    simp only [List.enumFrom]
    rw [List.pairwise_cons]
    exact ⟨fun q hq => h.1 q.2 (snd_mem_of_mem_enumFrom l (n + 1) q hq), ih (n + 1) h.2⟩

/-- Invariant of the FR-FCFS scan of `process_cycle`: starting from a
current best that is a candidate arriving no later than any remaining
element, the scan returns a candidate that neither the starting best nor
any candidate of the list beats under the C3 priority order. -/
theorem pickStep_foldl_spec (ctrl : Controller) (now : Nat) :
    ∀ (L : List (Nat × Request)) (acc : Option (Nat × Request)),
      (L.Pairwise fun p q => p.2.entry_cycle ≤ q.2.entry_cycle) →
      (∀ jb, acc = some jb → isCandidate ctrl jb.2 now ∧
        ∀ x ∈ L, jb.2.entry_cycle ≤ x.2.entry_cycle) →
      (match L.foldl (pickStep ctrl now) acc with
        | none => acc = none ∧ ∀ x ∈ L, ¬ isCandidate ctrl x.2 now
        | some ir => isCandidate ctrl ir.2 now ∧
            (acc = some ir ∨ ir ∈ L) ∧
            (∀ jb, acc = some jb → ¬ priorityBeats ctrl.banks jb.2 ir.2) ∧
            (∀ x ∈ L, isCandidate ctrl x.2 now →
              ¬ priorityBeats ctrl.banks x.2 ir.2)) := by
  intro L
  induction L with
  | nil =>
    intro acc _ hacc
    cases acc with
    | none => exact ⟨rfl, by simp⟩
    | some jb =>
      refine ⟨(hacc jb rfl).1, Or.inl rfl, ?_, by simp⟩
      intro jb2 h
      injection h with h
      rw [← h]
      exact priorityBeats_irrefl ctrl.banks jb.2
  | cons x L ih =>
    intro acc hpair hacc
    rw [List.foldl_cons]
    rw [List.pairwise_cons] at hpair
    by_cases hs : x.2.scheduled = true
    · have hstep : pickStep ctrl now acc x = acc := by
        unfold pickStep; rw [if_pos hs]
      rw [hstep]
      have hrec := ih acc hpair.2 fun jb hjb =>
        ⟨(hacc jb hjb).1, fun y hy => (hacc jb hjb).2 y (List.mem_cons_of_mem x hy)⟩
      have hnotcand : ¬ isCandidate ctrl x.2 now := fun hc => by
        rw [hc.1] at hs; cases hs
      rcases hres : L.foldl (pickStep ctrl now) acc with _ | ir
      · rw [hres] at hrec
        refine ⟨hrec.1, ?_⟩
        intro y hy
        rcases List.mem_cons.mp hy with h | h
        · rw [h]; exact hnotcand
        · exact hrec.2 y h
      · rw [hres] at hrec
        refine ⟨hrec.1, ?_, hrec.2.2.1, ?_⟩
        · rcases hrec.2.1 with h | h
          · exact Or.inl h
          · exact Or.inr (List.mem_cons_of_mem x h)
        · intro y hy hyc
          rcases List.mem_cons.mp hy with h | h
          · rw [h] at hyc; exact absurd hyc hnotcand
          · exact hrec.2.2.2 y h hyc
    · by_cases hsch : is_schedulable ctrl x.2 now = true
      · have hs2 : x.2.scheduled = false := by
          revert hs; cases x.2.scheduled <;> simp
        have hcand : isCandidate ctrl x.2 now := ⟨hs2, hsch⟩
        cases acc with
        | none =>
          have hstep : pickStep ctrl now none x = some x := by
            simp [pickStep, hs, hsch]
          rw [hstep]
          have hrec := ih (some x) hpair.2 fun jb hjb => by
            injection hjb with hjb
            rw [← hjb]
            exact ⟨hcand, fun y hy => hpair.1 y hy⟩
          rcases hres : L.foldl (pickStep ctrl now) (some x) with _ | ir
          · rw [hres] at hrec
            exact absurd hrec.1 (by simp)
          · rw [hres] at hrec
            refine ⟨hrec.1, ?_, ?_, ?_⟩
            · rcases hrec.2.1 with h | h
              · injection h with h
                rw [← h]
                exact Or.inr (List.mem_cons_self x L)
              · exact Or.inr (List.mem_cons_of_mem x h)
            · intro jb h; cases h
            · intro y hy hyc
              rcases List.mem_cons.mp hy with h | h
              · rw [h]; exact hrec.2.2.1 x rfl
              · exact hrec.2.2.2 y h hyc
        | some b =>
          by_cases hrep : replaces ctrl.banks b.2 x.2 = true
          · have hstep : pickStep ctrl now (some b) x = some x := by
              simp [pickStep, hs, hsch, hrep]
            rw [hstep]
            have hrec := ih (some x) hpair.2 fun jb hjb => by
              injection hjb with hjb
              rw [← hjb]
              exact ⟨hcand, fun y hy => hpair.1 y hy⟩
            rcases hres : L.foldl (pickStep ctrl now) (some x) with _ | ir
            · rw [hres] at hrec
              exact absurd hrec.1 (by simp)
            · rw [hres] at hrec
              have hxir : ¬ priorityBeats ctrl.banks x.2 ir.2 := hrec.2.2.1 x rfl
              refine ⟨hrec.1, ?_, ?_, ?_⟩
              · rcases hrec.2.1 with h | h
                · injection h with h
                  rw [← h]
                  exact Or.inr (List.mem_cons_self x L)
                · exact Or.inr (List.mem_cons_of_mem x h)
              · intro jb h
                injection h with h
                rw [← h]
                intro hbir
                exact hxir (replaces_true_mono ctrl.banks b.2 x.2 ir.2 hrep hbir)
              · intro y hy hyc
                rcases List.mem_cons.mp hy with h | h
                · rw [h]; exact hxir
                · exact hrec.2.2.2 y h hyc
          · have hstep : pickStep ctrl now (some b) x = some b := by
              simp [pickStep, hs, hsch, hrep]
            rw [hstep]
            have hrec := ih (some b) hpair.2 fun jb hjb => by
              injection hjb with hjb
              rw [← hjb]
              exact ⟨(hacc b rfl).1, fun y hy =>
                (hacc b rfl).2 y (List.mem_cons_of_mem x hy)⟩
            rcases hres : L.foldl (pickStep ctrl now) (some b) with _ | ir
            · rw [hres] at hrec
              exact absurd hrec.1 (by simp)
            · rw [hres] at hrec
              have hbir : ¬ priorityBeats ctrl.banks b.2 ir.2 := hrec.2.2.1 b rfl
              have hent : b.2.entry_cycle ≤ x.2.entry_cycle :=
                (hacc b rfl).2 x (List.mem_cons_self x L)
              refine ⟨hrec.1, ?_, ?_, ?_⟩
              · rcases hrec.2.1 with h | h
                · exact Or.inl h
                · exact Or.inr (List.mem_cons_of_mem x h)
              · intro jb h
                injection h with h
                rw [← h]
                exact hbir
              · intro y hy hyc
                rcases List.mem_cons.mp hy with h | h
                · rw [h]
                  intro hxir
                  exact hbir
                    (replaces_false_mono ctrl.banks b.2 x.2 ir.2
                      (by revert hrep; cases hr2 : replaces ctrl.banks b.2 x.2 <;> simp)
                      hent hxir)
                · exact hrec.2.2.2 y h hyc
      · have hstep : pickStep ctrl now acc x = acc := by
          simp [pickStep, hs, hsch]
        rw [hstep]
        have hrec := ih acc hpair.2 fun jb hjb =>
          ⟨(hacc jb hjb).1, fun y hy => (hacc jb hjb).2 y (List.mem_cons_of_mem x hy)⟩
        have hnotcand : ¬ isCandidate ctrl x.2 now := fun hc => hsch hc.2
        rcases hres : L.foldl (pickStep ctrl now) acc with _ | ir
        · rw [hres] at hrec
          refine ⟨hrec.1, ?_⟩
          intro y hy
          rcases List.mem_cons.mp hy with h | h
          · rw [h]; exact hnotcand
          · exact hrec.2 y h
        · rw [hres] at hrec
          refine ⟨hrec.1, ?_, hrec.2.2.1, ?_⟩
          · rcases hrec.2.1 with h | h
            · exact Or.inl h
            · exact Or.inr (List.mem_cons_of_mem x h)
          · intro y hy hyc
            rcases List.mem_cons.mp hy with h | h
            · rw [h] at hyc; exact absurd hyc hnotcand
            · exact hrec.2.2.2 y h hyc

/-- C3: given the FIFO queue discipline (arrival cycles nondecreasing in
queue order, as `enqueue_request` maintains), each cycle the scheduling
pass of `process_cycle` issues at most one schedulable request — only
the picked queue position changes, becoming the scheduled request — and
the picked request is a schedulable candidate that no other schedulable
candidate beats under the priority order: row-buffer hit before any
non-hit, then earliest arrival cycle, then memory-stage origin before
instruction-fetch origin. -/
theorem scheduler_fr_fcfs_priority (ctrl : Controller) (now : Nat)
    (hsorted : ctrl.request_queue.Pairwise fun a b => a.entry_cycle ≤ b.entry_cycle) :
    (pickBest ctrl now = none → schedulePass ctrl now = ctrl) ∧
    (∀ i r, pickBest ctrl now = some (i, r) →
      ctrl.request_queue[i]? = some r ∧
      isCandidate ctrl r now ∧
      (∀ s ∈ ctrl.request_queue, isCandidate ctrl s now →
        ¬ priorityBeats ctrl.banks s r) ∧
      (schedulePass ctrl now).request_queue[i]? =
        some (schedule_request ctrl r now).2 ∧
      (∀ j, j ≠ i → (schedulePass ctrl now).request_queue[j]? =
        ctrl.request_queue[j]?)) := by
  constructor
  · intro h
    unfold schedulePass
    rw [h]
  · intro i r hpick
    have hpair2 : ctrl.request_queue.enum.Pairwise
        fun p q => p.2.entry_cycle ≤ q.2.entry_cycle :=
      pairwise_enumFrom_of_pairwise _ ctrl.request_queue 0 hsorted
    have hrec := pickStep_foldl_spec ctrl now ctrl.request_queue.enum none hpair2
      (fun jb h => by cases h)
    unfold pickBest at hpick
    rw [hpick] at hrec
    have hmem : (i, r) ∈ ctrl.request_queue.enum := by
      rcases hrec.2.1 with h | h
      · cases h
      · exact h
    have hqi : ctrl.request_queue[i]? = some r :=
      List.mk_mem_enum_iff_getElem?.mp hmem
    have hopt : ∀ s ∈ ctrl.request_queue, isCandidate ctrl s now →
        ¬ priorityBeats ctrl.banks s r := by
      intro s hs hsc
      obtain ⟨j, hj⟩ := List.mem_iff_getElem?.mp hs
      exact hrec.2.2.2 (j, s) (List.mk_mem_enum_iff_getElem?.mpr hj) hsc
    have hsp : (schedulePass ctrl now).request_queue =
        ctrl.request_queue.set i (schedule_request ctrl r now).2 := by
      unfold schedulePass pickBest
      rw [hpick]
    have hlen : i < ctrl.request_queue.length := by
      rcases List.getElem?_eq_some.mp hqi with ⟨h, _⟩
      exact h
    refine ⟨hqi, hrec.1, hopt, ?_, ?_⟩
    · rw [hsp]
      exact List.getElem?_set_self hlen
    · intro j hj
      rw [hsp]
      exact List.getElem?_set_ne (fun h => hj h.symm)

/-- A queue for the C3 witness: an older row-conflict request followed by
a younger row-buffer-hit request, both to bank 0 whose open row is 0. -/
def reqConflictOld : Request :=
  { reqZero with req_id := 10, entry_cycle := 0, row_index := 5 }

/-- The younger row-hit request of the C3 witness. -/
def reqHitYoung : Request :=
  { reqZero with req_id := 11, entry_cycle := 1, row_index := 0 }

/-- A controller whose bank 0 has row 0 open and whose queue holds
`reqConflictOld` then `reqHitYoung`. -/
def ctrlOpenRow : Controller :=
  { ctrlIdle with
      banks := { active_row := 0, busy_until := 0 } :: List.replicate 7 bankDefault
      request_queue := [reqConflictOld, reqHitYoung] }

/-- Witness for C3 at a concrete state: the scan picks the younger
row-buffer-hit request over the older row-conflict request, and no
schedulable candidate beats it. -/
theorem scheduler_fr_fcfs_priority_witness :
    ctrlOpenRow.request_queue[1]? = some reqHitYoung ∧
    isCandidate ctrlOpenRow reqHitYoung 0 ∧
    (∀ s ∈ ctrlOpenRow.request_queue, isCandidate ctrlOpenRow s 0 →
      ¬ priorityBeats ctrlOpenRow.banks s reqHitYoung) := by
  have h := (scheduler_fr_fcfs_priority ctrlOpenRow 0 (by decide)).2 1 reqHitYoung
    (by decide)
  exact ⟨h.1, h.2.1, h.2.2.1⟩

end DRAM

namespace MSHRM

/-- `NUM_MSHRS` from cache.h. -/
def NUM_MSHRS : Nat := 16

/-- `L2_TO_MEM_LATENCY` from cache.h. -/
def L2_TO_MEM_LATENCY : Nat := 5

/-- `MEM_TO_L2_LATENCY` from cache.h. -/
def MEM_TO_L2_LATENCY : Nat := 5

/-- The `MSHRState` state machine from mshr.h. -/
inductive MSHRState
  | IDLE
  | WAITING_SEND
  | WAITING_DRAM
  | WAITING_FILL
  | READY
deriving DecidableEq, Repr

/-- `struct MSHR` from mshr.h (bytes of the data buffer as naturals). -/
structure MSHR where
  valid : Bool
  address : Nat
  state : MSHRState
  alloc_tick : Nat
  completion_cycle : Nat
  dram_request_cycle : Nat
  data : List Nat
  is_write : Bool
  is_inst_fetch : Bool
deriving DecidableEq, Repr

/-- The zero-initialised entry the `MSHRManager` constructor produces
(with an empty data buffer; the constructor resizes it to the line
size). -/
def mshrDefault : MSHR :=
  { valid := false
    address := 0
    state := MSHRState.IDLE
    alloc_tick := 0
    completion_cycle := 0
    dram_request_cycle := 0
    data := []
    is_write := false
    is_inst_fetch := false }

/-- `class MSHRManager` state: the fixed entry array and the line size. -/
structure Manager where
  mshrs : List MSHR
  line_size : Nat
deriving DecidableEq, Repr

/-- The freshly constructed manager: `NUM_MSHRS` invalid entries with
zeroed data buffers of `line_size` bytes. -/
def managerInit (line_size : Nat) : Manager :=
  { mshrs := List.replicate NUM_MSHRS
      { mshrDefault with data := List.replicate line_size 0 }
    line_size := line_size }

/-- The line alignment `address & ~(line_size - 1)` on 32-bit values:
for a power-of-two line size, `~(line_size - 1)` is `2^32 - line_size`. -/
def lineAlign (line_size : Nat) (address : Nat) : Nat :=
  address &&& (2 ^ 32 - line_size)

/-- `std::vector::resize(n, 0)`: keep the first `n` entries, pad with
zeros. -/
def listResize (l : List Nat) (n : Nat) : List Nat :=
  l.take n ++ List.replicate (n - l.length) 0

/-- `MSHRManager::allocate` from mshr.cpp lines 29-52: take the first
free entry (no duplicate-address check), line-align the address, start
in `WAITING_SEND` with `completion_cycle = now + L2_TO_MEM_LATENCY`.
Returns the chosen index (`none` models the C++ return value -1). -/
def allocate (m : Manager) (now : Nat) (address : Nat)
    (is_write : Bool) (is_inst_fetch : Bool) : Option Nat × Manager :=
  match m.mshrs.findIdx? fun e => !e.valid with
  | none => (none, m)
  | some i =>
    let e := m.mshrs.getD i mshrDefault
    let e2 : MSHR :=
      { valid := true
        address := lineAlign m.line_size address
        state := MSHRState.WAITING_SEND
        alloc_tick := now
        completion_cycle := now + L2_TO_MEM_LATENCY
        is_write := is_write
        is_inst_fetch := is_inst_fetch
        dram_request_cycle := 0
        data := listResize e.data m.line_size }
    (some i, { m with mshrs := m.mshrs.set i e2 })

/-- `MSHRManager::free`: invalidate the indexed entry. -/
def free (m : Manager) (mshr_index : Nat) : Manager :=
  let e := m.mshrs.getD mshr_index mshrDefault
  let e2 : MSHR := { e with valid := false, state := MSHRState.IDLE }
  { m with mshrs := m.mshrs.set mshr_index e2 }

/-- `MSHRManager::find_by_address`: first valid entry holding the
line-aligned address. -/
def find_by_address (m : Manager) (address : Nat) : Option Nat :=
  m.mshrs.findIdx? fun e =>
    e.valid && decide (e.address = lineAlign m.line_size address)

/-- The per-entry effect of `MSHRManager::dram_complete` from mshr.cpp
lines 94-115: every valid `WAITING_DRAM` entry for the address moves to
`WAITING_FILL` with `completion_cycle = now + MEM_TO_L2_LATENCY`; its
data buffer is not touched. -/
def dramCompleteEntry (now : Nat) (address : Nat) (e : MSHR) : MSHR :=
  if e.valid = true ∧ e.address = address ∧ e.state = MSHRState.WAITING_DRAM then
    { e with
        state := MSHRState.WAITING_FILL
        completion_cycle := now + MEM_TO_L2_LATENCY }
  else e

/-- `MSHRManager::dram_complete`. -/
def dram_complete (m : Manager) (now : Nat) (address : Nat) : Manager :=
  { m with mshrs := m.mshrs.map (dramCompleteEntry now address) }

/-- The little-endian bytes of a 32-bit word, as stored by the fill loop
(`data[k+0]` is the low byte). -/
def wordBytes (w : Nat) : List Nat :=
  [w &&& 0xFF, (w >>> 8) &&& 0xFF, (w >>> 16) &&& 0xFF, (w >>> 24) &&& 0xFF]

/-- The bytes the fill loop of `MSHRManager::process_cycle` writes into
the data buffer: for each word offset `k = 0, 4, ...` the little-endian
bytes of `mem_read_32(base + k)`. -/
def lineBytes (mem : Nat → Nat) (base : Nat) (line_size : Nat) : List Nat :=
  (List.range (line_size / 4)).flatMap fun kw => wordBytes (mem (base + 4 * kw))

/-- The per-entry effect of `MSHRManager::process_cycle` from mshr.cpp
lines 117-175: `WAITING_SEND` entries whose L2-to-memory delay has
elapsed move to `WAITING_DRAM`; `WAITING_FILL` entries whose fill delay
has elapsed copy the backing-memory bytes into the data buffer and move
to `READY`; other states are untouched. -/
def stepEntry (now : Nat) (mem : Nat → Nat) (line_size : Nat) (e : MSHR) : MSHR :=
  if e.valid = false then e
  else
    match e.state with
    | MSHRState.WAITING_SEND =>
      if now ≥ e.completion_cycle then { e with state := MSHRState.WAITING_DRAM } else e
    | MSHRState.WAITING_FILL =>
      if now ≥ e.completion_cycle then
        { e with
            state := MSHRState.READY
            data := lineBytes mem e.address line_size }
      else e
    | _ => e

/-- The DRAM requests `process_cycle` sends this cycle (the
`dram_ptr->enqueue_request(...)` calls of the `WAITING_SEND` arm), in
entry order: (address, is_write, is_inst_fetch). -/
def sent_requests (m : Manager) (now : Nat) : List (Nat × Bool × Bool) :=
  (m.mshrs.filter fun e =>
      e.valid &&
      decide (e.state = MSHRState.WAITING_SEND) &&
      decide (now ≥ e.completion_cycle)).map
    fun e => (e.address, e.is_write, e.is_inst_fetch)

/-- `MSHRManager::process_cycle`: step every entry, returning the new
state and the DRAM requests enqueued this cycle. -/
def process_cycle (m : Manager) (now : Nat) (mem : Nat → Nat) :
    Manager × List (Nat × Bool × Bool) :=
  ({ m with mshrs := m.mshrs.map (stepEntry now mem m.line_size) },
   sent_requests m now)

/-! Claim C1: duplicate MSHR allocation. -/

/-- The entry at index `i` of the manager (array indexing `mshrs[i]`). -/
def entryAt (m : Manager) (i : Nat) : MSHR :=
  m.mshrs.getD i mshrDefault

/-- C1 (evaluation at the failing input): `MSHRManager::allocate` performs
no duplicate-address check, so a second request for line 0x1000 — e.g.
an instruction fetch while a data miss for the same line is pending —
allocates a second valid MSHR entry for the same block address instead
of merging; two valid entries for address 0x1000 then coexist, and each
goes on to dispatch its own DRAM request. -/
theorem duplicate_mshr_allocation :
    ((allocate (managerInit 32) 0 0x1000 false false).1 = some 0) ∧
    ((allocate ((allocate (managerInit 32) 0 0x1000 false false).2)
        0 0x1000 false true).1 = some 1) ∧
    (entryAt ((allocate ((allocate (managerInit 32) 0 0x1000 false false).2)
        0 0x1000 false true).2) 0).valid = true ∧
    (entryAt ((allocate ((allocate (managerInit 32) 0 0x1000 false false).2)
        0 0x1000 false true).2) 1).valid = true ∧
    (entryAt ((allocate ((allocate (managerInit 32) 0 0x1000 false false).2)
        0 0x1000 false true).2) 0).address = 0x1000 ∧
    (entryAt ((allocate ((allocate (managerInit 32) 0 0x1000 false false).2)
        0 0x1000 false true).2) 1).address = 0x1000 := by
  decide

/-! Claim C5: MSHR lifecycle timing. -/

/-- Mapping an entrywise function that fixes the default entry commutes
with `getD` at the default. -/
theorem getD_map_fix (f : MSHR → MSHR) (l : List MSHR) (i : Nat)
    (hf : f mshrDefault = mshrDefault) :
    (l.map f).getD i mshrDefault = f (l.getD i mshrDefault) := by
  have h : (l.map f).getD i (f mshrDefault) = f (l.getD i mshrDefault) := by
    simp [List.getD_map]
  rwa [hf] at h

/-- `stepEntry` fixes the default (invalid) entry. -/
theorem stepEntry_default (now : Nat) (mem : Nat → Nat) (ls : Nat) :
    stepEntry now mem ls mshrDefault = mshrDefault := rfl

/-- `dramCompleteEntry` fixes the default (invalid) entry. -/
theorem dramCompleteEntry_default (now addr : Nat) :
    dramCompleteEntry now addr mshrDefault = mshrDefault := by
  unfold dramCompleteEntry
  rw [if_neg]
  intro h
  cases h.1

/-- A valid entry is inside the array bounds. -/
theorem lt_length_of_valid (m : Manager) (i : Nat)
    (h : (entryAt m i).valid = true) : i < m.mshrs.length := by
  by_contra hlt
  have : entryAt m i = mshrDefault := by
    unfold entryAt
    rw [List.getD_eq_default]
    omega
  rw [this] at h
  cases h

/-- C5 (amended): the MSHR lifecycle as implemented.  (1) `allocate`
starts an entry in `WAITING_SEND` with `completion_cycle` equal to the
allocation cycle plus 5.  (2) `process_cycle` moves a valid
`WAITING_SEND` entry to `WAITING_DRAM` exactly when the current cycle
has reached that completion cycle, enqueueing its DRAM request in the
same call.  (3) `dram_complete` moves a valid matching `WAITING_DRAM`
entry to `WAITING_FILL` with `completion_cycle = now + 5`, leaving the
data buffer untouched.  (4) `process_cycle` moves a valid
`WAITING_FILL` entry to `READY` exactly when the current cycle has
reached its completion cycle, and it is at this transition — not at the
`dram_complete` one — that the backing-memory bytes are copied into the
entry's data buffer. -/
theorem mshr_lifecycle (m : Manager) (now : Nat) (mem : Nat → Nat) (i : Nat) :
    (∀ addr w f j m2, allocate m now addr w f = (some j, m2) →
      (entryAt m2 j).valid = true ∧
      (entryAt m2 j).state = MSHRState.WAITING_SEND ∧
      (entryAt m2 j).alloc_tick = now ∧
      (entryAt m2 j).completion_cycle = now + 5) ∧
    ((entryAt m i).valid = true →
      (entryAt m i).state = MSHRState.WAITING_SEND →
      (now ≥ (entryAt m i).completion_cycle →
        (entryAt (process_cycle m now mem).1 i).state = MSHRState.WAITING_DRAM ∧
        ((entryAt m i).address, (entryAt m i).is_write, (entryAt m i).is_inst_fetch)
          ∈ (process_cycle m now mem).2) ∧
      (now < (entryAt m i).completion_cycle →
        entryAt (process_cycle m now mem).1 i = entryAt m i)) ∧
    (∀ addr, (entryAt m i).valid = true →
      (entryAt m i).state = MSHRState.WAITING_DRAM →
      (entryAt m i).address = addr →
      (entryAt (dram_complete m now addr) i).state = MSHRState.WAITING_FILL ∧
      (entryAt (dram_complete m now addr) i).completion_cycle = now + 5 ∧
      (entryAt (dram_complete m now addr) i).data = (entryAt m i).data) ∧
    ((entryAt m i).valid = true →
      (entryAt m i).state = MSHRState.WAITING_FILL →
      (now ≥ (entryAt m i).completion_cycle →
        (entryAt (process_cycle m now mem).1 i).state = MSHRState.READY ∧
        (entryAt (process_cycle m now mem).1 i).data =
          lineBytes mem (entryAt m i).address m.line_size) ∧
      (now < (entryAt m i).completion_cycle →
        entryAt (process_cycle m now mem).1 i = entryAt m i)) := by
  have hstep : entryAt (process_cycle m now mem).1 i =
      stepEntry now mem m.line_size (entryAt m i) := by
    show ((m.mshrs.map (stepEntry now mem m.line_size)).getD i mshrDefault) = _
    exact getD_map_fix _ m.mshrs i (stepEntry_default now mem m.line_size)
  refine ⟨?_, ?_, ?_, ?_⟩
  · intro addr w f j m2 halloc
    unfold allocate at halloc
    rcases hfind : m.mshrs.findIdx? (fun e => !e.valid) with _ | i0
    · rw [hfind] at halloc
      cases halloc
    · rw [hfind] at halloc
      simp only [Prod.mk.injEq, Option.some.injEq] at halloc
      obtain ⟨hj, hm2⟩ := halloc
      have hlen : i0 < m.mshrs.length :=
        (List.findIdx?_eq_some_iff_getElem.mp hfind).1
      rw [← hj, ← hm2]
      unfold entryAt
      simp only []
      rw [List.getD_eq_getElem?_getD, List.getElem?_set_self (by omega),
        Option.getD_some]
      exact ⟨rfl, rfl, rfl, rfl⟩
  · intro hvalid hstate
    constructor
    · intro hge
      constructor
      · rw [hstep]
        simp [stepEntry, hvalid, hstate, hge]
      · show _ ∈ sent_requests m now
        unfold sent_requests
        have hlen := lt_length_of_valid m i hvalid
        have hmem : entryAt m i ∈ m.mshrs := by
          unfold entryAt
          rw [List.getD_eq_getElem m.mshrs mshrDefault hlen]
          exact List.getElem_mem hlen
        refine List.mem_map.mpr ⟨entryAt m i, List.mem_filter.mpr ⟨hmem, ?_⟩, rfl⟩
        rw [hvalid, hstate]
        simp [hge]
    · intro hlt
      rw [hstep]
      simp [stepEntry, hvalid, hstate,
        show ¬(now ≥ (entryAt m i).completion_cycle) from by omega]
  · intro addr hvalid hstate haddr
    have hd : entryAt (dram_complete m now addr) i =
        dramCompleteEntry now addr (entryAt m i) := by
      show ((m.mshrs.map (dramCompleteEntry now addr)).getD i mshrDefault) = _
      exact getD_map_fix _ m.mshrs i (dramCompleteEntry_default now addr)
    rw [hd]
    unfold dramCompleteEntry
    rw [if_pos ⟨hvalid, haddr, hstate⟩]
    exact ⟨rfl, rfl, rfl⟩
  · intro hvalid hstate
    constructor
    · intro hge
      rw [hstep]
      simp [stepEntry, hvalid, hstate, hge]
    · intro hlt
      rw [hstep]
      simp [stepEntry, hvalid, hstate,
        show ¬(now ≥ (entryAt m i).completion_cycle) from by omega]

/-- A backing memory whose every word reads 0xDEADBEEF. -/
def memBeef : Nat → Nat := fun _ => 0xDEADBEEF

/-- An invalid entry with an 8-byte zeroed buffer (line size 8). -/
def idleEntry8 : MSHR := { mshrDefault with data := List.replicate 8 0 }

/-- Entry 0 waiting to send its DRAM request (allocated at cycle 0,
`completion_cycle` 5). -/
def entrySend : MSHR :=
  { idleEntry8 with
      valid := true
      address := 0x100
      state := MSHRState.WAITING_SEND
      completion_cycle := 5 }

/-- A manager whose entry 0 is `entrySend`. -/
def mgrSend : Manager :=
  { mshrs := entrySend :: List.replicate 15 idleEntry8, line_size := 8 }

/-- Entry 0 waiting on DRAM. -/
def entryDram : MSHR := { entrySend with state := MSHRState.WAITING_DRAM }

/-- A manager whose entry 0 is `entryDram`. -/
def mgrDram : Manager :=
  { mshrs := entryDram :: List.replicate 15 idleEntry8, line_size := 8 }

/-- Entry 0 waiting to fill L2 (`completion_cycle` 12). -/
def entryFill : MSHR :=
  { entrySend with state := MSHRState.WAITING_FILL, completion_cycle := 12 }

/-- A manager whose entry 0 is `entryFill`. -/
def mgrFill : Manager :=
  { mshrs := entryFill :: List.replicate 15 idleEntry8, line_size := 8 }

/-- Witness for C5 (amended) at concrete states: the send transition
fires at the recorded completion cycle, `dram_complete` moves a waiting
entry to `WAITING_FILL` with completion `now + 5`, and the fill
transition reaches `READY` at its completion cycle. -/
theorem mshr_lifecycle_witness :
    (entryAt (process_cycle mgrSend 5 memBeef).1 0).state =
      MSHRState.WAITING_DRAM ∧
    (entryAt (dram_complete mgrDram 7 0x100) 0).state =
      MSHRState.WAITING_FILL ∧
    (entryAt (dram_complete mgrDram 7 0x100) 0).completion_cycle = 12 ∧
    (entryAt (process_cycle mgrFill 12 memBeef).1 0).state =
      MSHRState.READY := by
  have h1 := (mshr_lifecycle mgrSend 5 memBeef 0).2.1 (by decide) (by decide)
  have h2 := (mshr_lifecycle mgrDram 7 memBeef 0).2.2.1 0x100
    (by decide) (by decide) (by decide)
  have h3 := (mshr_lifecycle mgrFill 12 memBeef 0).2.2.2 (by decide) (by decide)
  exact ⟨(h1.1 (by decide)).1, h2.1, h2.2.1, (h3.1 (by decide)).1⟩

/-- Counterexample to C5 as stated: at the WAITING_DRAM to WAITING_FILL
transition (`dram_complete` at cycle 7 for address 0x100) the entry's
data buffer is left untouched (still all zeros), even though the
backing-memory bytes at 0x100 are nonzero — the copy does not happen at
this transition (it happens only later, at WAITING_FILL to READY). -/
theorem dram_complete_copies_no_data :
    (entryAt (dram_complete mgrDram 7 0x100) 0).state =
      MSHRState.WAITING_FILL ∧
    (entryAt (dram_complete mgrDram 7 0x100) 0).data = List.replicate 8 0 ∧
    lineBytes memBeef 0x100 8 ≠ List.replicate 8 0 := by
  decide

end MSHRM

namespace CacheM

/-- MESI coherence states (`MESI_State` of the multi-core cache header). -/
inductive MESI
  | INVALID
  | SHARED
  | EXCLUSIVE
  | MODIFIED
deriving DecidableEq, Repr

/-- Inclusion policies (`InclusionPolicy`): the values `INCL_INCLUSIVE`
and `INCL_EXCLUSIVE` appear in cache.cpp; the third (non-inclusive
non-exclusive) is named per spec section 4.2. -/
inductive InclusionPolicy
  | INCL_INCLUSIVE
  | INCL_EXCLUSIVE
  | INCL_NINE
deriving DecidableEq, Repr

/-- A cache block (`CacheBlock`): tag, MESI state, dirty flag, LRU
counter and the data bytes. -/
structure CacheBlock where
  tag : Nat
  state : MESI
  dirty : Bool
  lru_count : Nat
  data : List Nat
deriving DecidableEq, Repr

/-- A freshly constructed (invalid) block with a zeroed buffer. -/
def blockDefault (block_size : Nat) : CacheBlock :=
  { tag := 0
    state := MESI.INVALID
    dirty := false
    lru_count := 0
    data := List.replicate block_size 0 }

/-- The base `Cache` state: geometry and the per-set block arrays
(cache.cpp constructor, lines 13-30). -/
structure CacheS where
  num_sets : Nat
  ways : Nat
  block_size : Nat
  sets : List (List CacheBlock)
deriving DecidableEq, Repr

/-- Floor base-2 logarithm (`(uint32_t)std::log2(n)` on the powers of
two the caches use), written with a structural fuel argument so that it
evaluates by kernel reduction. -/
def log2fuel : Nat → Nat → Nat
  | 0, _ => 0
  | fuel + 1, n => if n ≥ 2 then log2fuel fuel (n / 2) + 1 else 0

/-- Floor base-2 logarithm (see `log2fuel`). -/
def ilog2 (n : Nat) : Nat := log2fuel n n

/-- `index_shift = log2(block_size)` (cache.cpp:23). -/
def index_shift (c : CacheS) : Nat := ilog2 c.block_size

/-- `index_mask = num_sets - 1` (cache.cpp:26). -/
def index_mask (c : CacheS) : Nat := c.num_sets - 1

/-- `tag_shift = index_shift + log2(num_sets)` (cache.cpp:29). -/
def tag_shift (c : CacheS) : Nat := index_shift c + ilog2 c.num_sets

/-- Modelled from the spec: `get_index` of the missing multi-core cache
header — section 3 address decomposition, `(addr >> index_shift) &
index_mask`, consistent with the constructor shifts (cache.cpp:21-29)
and the address reconstruction in `Cache::evict` (cache.cpp:120). -/
def get_index (c : CacheS) (addr : Nat) : Nat :=
  (addr >>> index_shift c) &&& index_mask c

/-- Modelled from the spec: `get_tag` of the missing multi-core cache
header — the remaining high bits, `addr >> tag_shift`. -/
def get_tag (c : CacheS) (addr : Nat) : Nat :=
  addr >>> tag_shift c

/-- The block-address alignment `addr & ~(block_size - 1)` on 32-bit
values (`~(block_size - 1)` is `2^32 - block_size` for a power of two). -/
def blockAlign (block_size : Nat) (addr : Nat) : Nat :=
  addr &&& (2 ^ 32 - block_size)

/-- The set at an index (array access `sets[set_idx]`). -/
def setAt (c : CacheS) (set_idx : Nat) : List CacheBlock :=
  c.sets.getD set_idx []

/-- The block at a way of a set (array access `sets[set_idx].blocks[way]`). -/
def blockAt (c : CacheS) (set_idx way : Nat) : CacheBlock :=
  (setAt c set_idx).getD way (blockDefault c.block_size)

/-- Replace one set of the cache. -/
def setSets (c : CacheS) (set_idx : Nat) (s : List CacheBlock) : CacheS :=
  { c with sets := c.sets.set set_idx s }

/-- Replace one block of the cache. -/
def setBlock (c : CacheS) (set_idx way : Nat) (b : CacheBlock) : CacheS :=
  setSets c set_idx ((setAt c set_idx).set way b)

/-- `Cache::find_block` (cache.cpp:32-40): the first way holding the tag
in a non-INVALID state. -/
def find_block (c : CacheS) (set_idx tag : Nat) : Option Nat :=
  (setAt c set_idx).findIdx? fun b =>
    decide (b.tag = tag) && !(decide (b.state = MESI.INVALID))

/-- Indexed map used to model the per-way loops of cache.cpp. -/
def mapIdxFrom {α : Type} (f : Nat → α → α) : Nat → List α → List α
  | _, [] => []
  | i, b :: bs => f i b :: mapIdxFrom f (i + 1) bs

/-- `Cache::update_lru` (cache.cpp:42-54): every valid peer whose counter
is below the touched way's current counter is incremented, then the
touched way's counter is set to 0. -/
def update_lru (c : CacheS) (set_idx way : Nat) : CacheS :=
  let set := setAt c set_idx
  let current_lru := (set.getD way (blockDefault c.block_size)).lru_count
  let set2 := mapIdxFrom
    (fun i b =>
      if i ≠ way ∧ b.state ≠ MESI.INVALID ∧ b.lru_count < current_lru then
        { b with lru_count := b.lru_count + 1 }
      else b) 0 set
  let set3 := set2.set way { set2.getD way (blockDefault c.block_size) with lru_count := 0 }
  setSets c set_idx set3

/-- `Cache::find_victim` (cache.cpp:56-75): the first INVALID way if one
exists, otherwise the scan keeping the last way whose counter reaches
the running maximum (initial maximum 0, so some way is always chosen on
a nonempty set). -/
def find_victim (c : CacheS) (set_idx : Nat) : Option Nat :=
  let set := setAt c set_idx
  match set.findIdx? (fun b => decide (b.state = MESI.INVALID)) with
  | some i => some i
  | none =>
    (set.enum.foldl
      (fun acc p => if p.2.lru_count ≥ acc.2 then (some p.1, p.2.lru_count) else acc)
      ((none : Option Nat), 0)).1

/-- `Cache::probe_read` (cache.cpp:77-87): on a hit, update the LRU and
return the way. -/
def probe_read (c : CacheS) (addr : Nat) : Option Nat × CacheS :=
  let set_idx := get_index c addr
  let tag := get_tag c addr
  match find_block c set_idx tag with
  | some way => (some way, update_lru c set_idx way)
  | none => (none, c)

/-- `Cache::probe_write` (cache.cpp:89-106): on a hit, update the LRU,
set the dirty bit and (when a payload is supplied) copy the data. -/
def probe_write (c : CacheS) (addr : Nat) (payload : Option (List Nat)) :
    Bool × CacheS :=
  let set_idx := get_index c addr
  let tag := get_tag c addr
  match find_block c set_idx tag with
  | some way =>
    let c2 := update_lru c set_idx way
    let b := blockAt c2 set_idx way
    let b2 : CacheBlock :=
      { b with
          dirty := true
          data := match payload with | some d => d | none => b.data }
    (true, setBlock c2 set_idx way b2)
  | none => (false, c)

/-- The out-parameters of `Cache::evict`: the reported dirty status and,
when a writeback is needed, the reconstructed victim address and its
data (the callers' locals start as 0 / empty). -/
structure EvictInfo where
  dirty_evicted : Bool
  evicted_addr : Nat
  evicted_data : List Nat
deriving DecidableEq, Repr

/-- The empty `EvictInfo` (no writeback reported). -/
def evictNone : EvictInfo :=
  { dirty_evicted := false, evicted_addr := 0, evicted_data := [] }

/-- `Cache::evict` (cache.cpp:108-133): report the victim's dirty status,
emit address and data when `dirty || writeback_clean`, and invalidate
the block (clearing dirty). -/
def evict (c : CacheS) (set_idx way : Nat) (writeback_clean : Bool) :
    CacheS × EvictInfo :=
  let b := blockAt c set_idx way
  let info : EvictInfo :=
    if b.state ≠ MESI.INVALID then
      let needs_writeback := b.dirty || writeback_clean
      { dirty_evicted := b.dirty
        evicted_addr :=
          if needs_writeback then (b.tag <<< tag_shift c) ||| (set_idx <<< index_shift c)
          else 0
        evicted_data := if needs_writeback then b.data else [] }
    else evictNone
  (setBlock c set_idx way { b with state := MESI.INVALID, dirty := false }, info)

/-- `Cache::install` (cache.cpp:135-168): reuse an existing way for the
tag (no eviction) or evict the victim way; write the new block (state
EXCLUSIVE, clean, MRU, optional payload) and update the LRU.  Returns
the new cache, the way that was written, and the eviction report. -/
def install (c : CacheS) (addr : Nat) (payload : Option (List Nat))
    (writeback_clean : Bool) : CacheS × Nat × EvictInfo :=
  let set_idx := get_index c addr
  let tag := get_tag c addr
  let wic : Nat × CacheS × EvictInfo :=
    match find_block c set_idx tag with
    | some way => (way, c, evictNone)
    | none =>
      let way := (find_victim c set_idx).getD 0
      let ce := evict c set_idx way writeback_clean
      (way, ce.1, ce.2)
  let way := wic.1
  let c1 := wic.2.1
  let b := blockAt c1 set_idx way
  let b2 : CacheBlock :=
    { b with
        tag := tag
        state := MESI.EXCLUSIVE
        dirty := false
        lru_count := 0
        data := match payload with | some d => d | none => b.data }
  let c2 := setBlock c1 set_idx way b2
  (update_lru c2 set_idx way, way, wic.2.2)

/-- `L2_MSHR_SIZE` (config.h; spec: `llc_mshrs` fixed 16). -/
def L2_MSHR_SIZE : Nat := 16

/-- `L2_TO_DRAM_DELAY` (config.h; spec: `l2_to_dram_delay` = 5). -/
def L2_TO_DRAM_DELAY : Nat := 5

/-- `DRAM_TO_L2_DELAY` (config.h; spec: `dram_to_l2_delay` = 5). -/
def DRAM_TO_L2_DELAY : Nat := 5

/-- `L2_HIT_LATENCY` (config.h; spec: `llc_hit_latency`, 15 in the
single-core header). -/
def L2_HIT_LATENCY : Nat := 15

/-- An L2 MSHR entry (the `mshrs` array fields used in cache.cpp:186-199). -/
structure L2MSHR where
  valid : Bool
  address : Nat
  is_write : Bool
  core_id : Int
  done : Bool
  ready_cycle : Nat
deriving DecidableEq, Repr

/-- An invalid (free) L2 MSHR entry. -/
def l2mshrDefault : L2MSHR :=
  { valid := false, address := 0, is_write := false, core_id := 0
    done := false, ready_cycle := 0 }

/-- An entry of the L2 request queue (`Req_Queue_Item`, cache.cpp:264-269). -/
structure ReqItem where
  is_write : Bool
  addr : Nat
  core_id : Int
  ready_cycle : Nat
deriving DecidableEq, Repr

/-- A request handed to the multi-core DRAM front end
(`DRAM::enqueue(is_write, addr, core_id, SRC_MEMORY, cycle)`; the source
tag is `SRC_MEMORY` at every modelled call site). -/
structure DramEnq where
  is_write : Bool
  addr : Nat
  core_id : Int
  cycle : Nat
deriving DecidableEq, Repr

/-- The `L2Cache` state: storage, inclusion policy, MSHR array and the
L2-to-DRAM request queue. -/
structure L2S where
  cache : CacheS
  incl_policy : InclusionPolicy
  mshrs : List L2MSHR
  req_queue : List ReqItem
deriving DecidableEq, Repr

/-- `L2Cache::check_mshr` (cache.cpp:176-184): the first valid MSHR for
the block-aligned address. -/
def check_mshr (l2 : L2S) (addr : Nat) : Option Nat :=
  let block_addr := blockAlign l2.cache.block_size addr
  l2.mshrs.findIdx? fun e => e.valid && decide (e.address = block_addr)

/-- `L2Cache::allocate_mshr` (cache.cpp:186-200): take the first free
entry (the caller has already ruled out a pending entry). -/
def allocate_mshr (l2 : L2S) (addr : Nat) (is_write : Bool) (core_id : Int) :
    Option Nat × L2S :=
  match l2.mshrs.findIdx? (fun e => !e.valid) with
  | none => (none, l2)
  | some i =>
    let e : L2MSHR :=
      { valid := true
        address := blockAlign l2.cache.block_size addr
        is_write := is_write
        core_id := core_id
        done := false
        ready_cycle := 0 }
    (some i, { l2 with mshrs := l2.mshrs.set i e })

/-- The result values of `L2Cache::access`. -/
inductive L2Result
  | L2_BUSY
  | L2_HIT
  | L2_MISS
deriving DecidableEq, Repr

/-- The EXCLUSIVE-policy invalidation applied on an L2 hit
(cache.cpp:226-234 and 241-248): the hit block is set INVALID and clean. -/
def invalidateOnHit (l2 : L2S) (addr : Nat) : L2S :=
  let set_idx := get_index l2.cache addr
  let tag := get_tag l2.cache addr
  match find_block l2.cache set_idx tag with
  | some way =>
    let b := blockAt l2.cache set_idx way
    let b2 : CacheBlock := { b with state := MESI.INVALID, dirty := false }
    { l2 with cache := setBlock l2.cache set_idx way b2 }
  | none => l2

/-- `L2Cache::access` (cache.cpp:202-276): BUSY when the request is
neither pending nor allocatable; probe for a hit (invalidating the block
under the exclusive policy); on a miss, merge into a pending MSHR if one
exists, otherwise allocate an MSHR and enqueue the request for DRAM with
the 5-cycle send delay. -/
def l2_access (l2 : L2S) (now : Nat) (addr : Nat) (is_write : Bool)
    (core_id : Int) : L2Result × L2S :=
  let pending := check_mshr l2 addr
  if pending = none ∧ (l2.mshrs.all fun e => e.valid) then
    (L2Result.L2_BUSY, l2)
  else
    let hc : Bool × CacheS :=
      if is_write then probe_write l2.cache addr none
      else
        let pr := probe_read l2.cache addr
        (pr.1.isSome, pr.2)
    let l2p : L2S := { l2 with cache := hc.2 }
    if hc.1 then
      (L2Result.L2_HIT,
        if l2p.incl_policy = InclusionPolicy.INCL_EXCLUSIVE then
          invalidateOnHit l2p addr
        else l2p)
    else if pending ≠ none then
      (L2Result.L2_MISS, l2p)
    else
      match allocate_mshr l2p addr is_write core_id with
      | (some _, l2a) =>
        (L2Result.L2_MISS,
          { l2a with req_queue := l2a.req_queue ++
              [{ is_write := is_write, addr := addr, core_id := core_id
                 ready_cycle := now + L2_TO_DRAM_DELAY }] })
      | (none, l2a) => (L2Result.L2_BUSY, l2a)

/-- `L2Cache::handle_l1_writeback` (cache.cpp:349-360): update the L2 on
a hit, otherwise write through to DRAM (bypassing allocation). -/
def handle_l1_writeback (l2 : L2S) (dram : List DramEnq) (now : Nat)
    (addr : Nat) (data : List Nat) : L2S × List DramEnq :=
  let pw := probe_write l2.cache addr (some data)
  if pw.1 then ({ l2 with cache := pw.2 }, dram)
  else
    (l2, dram ++ [{ is_write := true, addr := addr, core_id := -1, cycle := now }])

/-- `L1Cache::probe_coherence` (cache.cpp:432-468): if the block is held,
report presence and whether it was MODIFIED (emitting the data in that
case), then invalidate on a write probe or downgrade M/E to SHARED and
clean on a read probe.  (The `state == INVALID` early return of the C++
is unreachable: `find_block` already excludes INVALID ways.)  Returns
(present, was_modified, emitted data, new cache). -/
def probe_coherence (c : CacheS) (addr : Nat) (is_write_req : Bool) :
    Bool × Bool × Option (List Nat) × CacheS :=
  let set_idx := get_index c addr
  let tag := get_tag c addr
  match find_block c set_idx tag with
  | none => (false, false, none, c)
  | some way =>
    let blk := blockAt c set_idx way
    let was_modified := decide (blk.state = MESI.MODIFIED)
    let dataOut := if blk.state = MESI.MODIFIED then some blk.data else none
    let blk2 : CacheBlock :=
      if is_write_req then { blk with state := MESI.INVALID, dirty := false }
      else if blk.state = MESI.MODIFIED ∨ blk.state = MESI.EXCLUSIVE then
        { blk with state := MESI.SHARED, dirty := false }
      else blk
    (true, was_modified, dataOut, setBlock c set_idx way blk2)

/-- The per-L1 MSHR (fields set in cache.cpp:605-651; `ready_cycle` is a
64-bit unsigned, so the stored `-1` "await callback" sentinel is its
wrap-around value). -/
structure L1MSHR where
  valid : Bool
  address : Nat
  is_write : Bool
  ready_cycle : Nat
  target_state : MESI
deriving DecidableEq, Repr

/-- The `-1` sentinel stored into the unsigned `ready_cycle`. -/
def READY_AWAIT_CALLBACK : Nat := 2 ^ 64 - 1

/-- The initial (invalid) L1 MSHR of the constructor (cache.cpp:419-423). -/
def l1mshrDefault : L1MSHR :=
  { valid := false, address := 0, is_write := false, ready_cycle := 0
    target_state := MESI.INVALID }

/-- An L1 cache: storage, core id and the single MSHR. -/
structure L1S where
  cache : CacheS
  id : Nat
  mshr : L1MSHR
deriving DecidableEq, Repr

/-- `L1Cache::fill` (cache.cpp:659-680): only when the single MSHR is
valid for the block-aligned address, install the block in the target
state (dirty iff MODIFIED), hand a dirty victim — or, under the
exclusive policy, a clean one — to the L2 as a writeback, and free the
MSHR.  Otherwise the call changes nothing. -/
def l1_fill (l1 : L1S) (l2 : L2S) (dram : List DramEnq) (now : Nat)
    (addr : Nat) (target_state : MESI) : L1S × L2S × List DramEnq :=
  if l1.mshr.valid = true ∧
      l1.mshr.address = blockAlign l1.cache.block_size addr then
    let wb_clean := decide (l2.incl_policy = InclusionPolicy.INCL_EXCLUSIVE)
    let cwi := install l1.cache addr none wb_clean
    let c2 := cwi.1
    let way := cwi.2.1
    let info := cwi.2.2
    let set_idx := get_index l1.cache addr
    let b := blockAt c2 set_idx way
    let b2 : CacheBlock :=
      { b with
          state := target_state
          dirty := if target_state = MESI.MODIFIED then true else b.dirty }
    let c3 := setBlock c2 set_idx way b2
    let wres : L2S × List DramEnq :=
      if info.dirty_evicted then
        handle_l1_writeback l2 dram now info.evicted_addr info.evicted_data
      else if wb_clean ∧ info.evicted_data.length > 0 then
        handle_l1_writeback l2 dram now info.evicted_addr info.evicted_data
      else (l2, dram)
    ({ l1 with cache := c3, mshr := { l1.mshr with valid := false } },
     wres.1, wres.2)
  else (l1, l2, dram)

/-- A core's private caches (`Core::icache` / `Core::dcache`). -/
structure CoreS where
  icache : L1S
  dcache : L1S
deriving DecidableEq, Repr

/-- An empty placeholder core (out-of-range `getD` default). -/
def coreDefault : CoreS :=
  { icache := { cache := { num_sets := 0, ways := 0, block_size := 0, sets := [] }
                id := 0, mshr := l1mshrDefault }
    dcache := { cache := { num_sets := 0, ways := 0, block_size := 0, sets := [] }
                id := 0, mshr := l1mshrDefault } }

/-- The multi-core system state reachable from an L1 access: the cores,
the shared L2 and the DRAM request list. -/
structure Sys where
  cores : List CoreS
  l2 : L2S
  dram : List DramEnq
deriving DecidableEq, Repr

/-- The L1 the access runs on (`useD` selects the D-cache). -/
def selfL1 (sys : Sys) (cid : Nat) (useD : Bool) : L1S :=
  let co := sys.cores.getD cid coreDefault
  if useD then co.dcache else co.icache

/-- Write back the accessed L1 into the system. -/
def setSelf (sys : Sys) (cid : Nat) (useD : Bool) (l1 : L1S) : Sys :=
  let co := sys.cores.getD cid coreDefault
  let co2 := if useD then { co with dcache := l1 } else { co with icache := l1 }
  { sys with cores := sys.cores.set cid co2 }

/-- Accumulator of the peer-snoop loop of `L1Cache::access` step 4
(cache.cpp:568-589). -/
structure SnoopAcc where
  cores : List CoreS
  found_shared : Bool
  found_modified : Bool
  coherence_data : Option (List Nat)
deriving DecidableEq, Repr

/-- One iteration of the snoop loop: skip the requesting core, probe the
peer's I-cache then D-cache, accumulate presence / modified flags and
capture modified data. -/
def snoopStep (cid : Nat) (addr : Nat) (is_write : Bool)
    (acc : SnoopAcc) (j : Nat) : SnoopAcc :=
  if j = cid then acc
  else
    let co := acc.cores.getD j coreDefault
    let ri := probe_coherence co.icache.cache addr is_write
    let co1 : CoreS := { co with icache := { co.icache with cache := ri.2.2.2 } }
    let accData1 := match ri.2.2.1 with | some d => some d | none => acc.coherence_data
    let rd := probe_coherence co1.dcache.cache addr is_write
    let co2 : CoreS := { co1 with dcache := { co1.dcache with cache := rd.2.2.2 } }
    let accData2 := match rd.2.2.1 with | some d => some d | none => accData1
    { cores := acc.cores.set j co2
      found_shared := (acc.found_shared || ri.1) || rd.1
      found_modified := (acc.found_modified || ri.2.1) || rd.2.1
      coherence_data := accData2 }

/-- The whole snoop loop over all cores. -/
def snoopPeers (cores : List CoreS) (cid : Nat) (addr : Nat)
    (is_write : Bool) : SnoopAcc :=
  (List.range cores.length).foldl (snoopStep cid addr is_write)
    { cores := cores, found_shared := false, found_modified := false
      coherence_data := none }

/-- The miss-handling region of `L1Cache::access` (cache.cpp:532-657).
Every exit of this region returns false (stall / miss pending) in the
C++, so the model returns only the updated system: step 1 write
exclusion against peer L1 MSHRs, steps 2-3 L2 MSHR pending / full
stalls, step 4 peer snoop (dirty peer data written straight to DRAM,
L1 MSHR armed with ready cycle now+5), step 5 L2 probe and hit (MSHR
armed with now+5+L2 hit latency), step 6 L2 allocation (MSHR armed to
await the fill callback). -/
def l1_miss_path (sys : Sys) (now : Nat) (cid : Nat) (useD : Bool)
    (addr : Nat) (is_write : Bool) : Sys :=
  let l1 := selfL1 sys cid useD
  let a31 := addr &&& 0xFFFFFFE0
  let conflict := sys.cores.enum.any fun p =>
    if p.1 = cid then false
    else
      (p.2.icache.mshr.valid && decide (p.2.icache.mshr.address = a31) &&
        (p.2.icache.mshr.is_write || is_write)) ||
      (p.2.dcache.mshr.valid && decide (p.2.dcache.mshr.address = a31) &&
        (p.2.dcache.mshr.is_write || is_write))
  if conflict then sys
  else if (check_mshr sys.l2 addr).isSome then sys
  else if sys.l2.mshrs.all (fun e => e.valid) then sys
  else
    let sn := snoopPeers sys.cores cid addr is_write
    if sn.found_shared then
      let dram2 :=
        if sn.found_modified then
          sys.dram ++ [{ is_write := true, addr := a31, core_id := -1, cycle := now }]
        else sys.dram
      let mshr2 : L1MSHR :=
        { valid := true
          address := a31
          is_write := is_write
          ready_cycle := now + 5
          target_state := if is_write then MESI.MODIFIED else MESI.SHARED }
      setSelf { sys with cores := sn.cores, dram := dram2 } cid useD
        { l1 with mshr := mshr2 }
    else
      let sys2 : Sys := { sys with cores := sn.cores }
      let pr := probe_read sys2.l2.cache addr
      let sys3 : Sys := { sys2 with l2 := { sys2.l2 with cache := pr.2 } }
      if pr.1.isSome then
        let ar := l2_access sys3.l2 now addr is_write (Int.ofNat cid)
        let sys4 : Sys := { sys3 with l2 := ar.2 }
        if ar.1 = L2Result.L2_HIT then
          let mshr2 : L1MSHR :=
            { valid := true
              address := a31
              is_write := is_write
              ready_cycle := now + 5 + L2_HIT_LATENCY
              target_state := if is_write then MESI.MODIFIED else MESI.EXCLUSIVE }
          setSelf sys4 cid useD { l1 with mshr := mshr2 }
        else
          let ar2 := l2_access sys4.l2 now addr is_write (Int.ofNat cid)
          let sys5 : Sys := { sys4 with l2 := ar2.2 }
          if ar2.1 = L2Result.L2_MISS then
            let mshr2 : L1MSHR :=
              { valid := true
                address := a31
                is_write := is_write
                ready_cycle := READY_AWAIT_CALLBACK
                target_state := if is_write then MESI.MODIFIED else MESI.EXCLUSIVE }
            setSelf sys5 cid useD { l1 with mshr := mshr2 }
          else sys5
      else
        let ar2 := l2_access sys3.l2 now addr is_write (Int.ofNat cid)
        let sys5 : Sys := { sys3 with l2 := ar2.2 }
        if ar2.1 = L2Result.L2_MISS then
          let mshr2 : L1MSHR :=
            { valid := true
              address := a31
              is_write := is_write
              ready_cycle := READY_AWAIT_CALLBACK
              target_state := if is_write then MESI.MODIFIED else MESI.EXCLUSIVE }
          setSelf sys5 cid useD { l1 with mshr := mshr2 }
        else sys5

/-- `L1Cache::access` (cache.cpp:470-657): step 0 completes a ready
pending miss through `fill` (returning a hit) or stalls; otherwise a
write hits only on a MODIFIED or EXCLUSIVE block (moving it to MODIFIED
dirty and updating the LRU), a SHARED block falls through as an upgrade
miss; a read hits on any valid block (updating the LRU); misses go
through `l1_miss_path` and return false. -/
def l1_access (sys : Sys) (now : Nat) (cid : Nat) (useD : Bool)
    (addr : Nat) (is_write : Bool) : Bool × Sys :=
  let l1 := selfL1 sys cid useD
  if l1.mshr.valid then
    if l1.mshr.address = blockAlign l1.cache.block_size addr then
      if now ≥ l1.mshr.ready_cycle then
        let target := l1.mshr.target_state
        let fres := l1_fill l1 sys.l2 sys.dram now l1.mshr.address target
        (true, setSelf { sys with l2 := fres.2.1, dram := fres.2.2 } cid useD fres.1)
      else (false, sys)
    else (false, sys)
  else
    let set_idx := get_index l1.cache addr
    let tag := get_tag l1.cache addr
    if is_write then
      match find_block l1.cache set_idx tag with
      | some way =>
        let b := blockAt l1.cache set_idx way
        if b.state = MESI.MODIFIED ∨ b.state = MESI.EXCLUSIVE then
          let c2 := update_lru l1.cache set_idx way
          let b2 : CacheBlock :=
            { blockAt c2 set_idx way with state := MESI.MODIFIED, dirty := true }
          let c3 := setBlock c2 set_idx way b2
          (true, setSelf sys cid useD { l1 with cache := c3 })
        else
          (false, l1_miss_path sys now cid useD addr is_write)
      | none =>
        (false, l1_miss_path sys now cid useD addr is_write)
    else
      let pr := probe_read l1.cache addr
      if pr.1.isSome then
        (true, setSelf sys cid useD { l1 with cache := pr.2 })
      else
        (false, l1_miss_path sys now cid useD addr is_write)

/-! Helper lemmas on list updates. -/

/-- `getD` after `set` at the same (in-range) index. -/
theorem getD_set_self {α : Type} (l : List α) (i : Nat) (b d : α)
    (h : i < l.length) : (l.set i b).getD i d = b := by
  rw [List.getD_eq_getElem?_getD, List.getElem?_set_self h]
  rfl

/-- `getD` after `set` at a different index. -/
theorem getD_set_ne {α : Type} (l : List α) (i j : Nat) (b d : α)
    (h : j ≠ i) : (l.set i b).getD j d = l.getD j d := by
  rw [List.getD_eq_getElem?_getD, List.getElem?_set_ne (Ne.symm h),
    ← List.getD_eq_getElem?_getD]

/-- `mapIdxFrom` preserves length. -/
theorem mapIdxFrom_length {α : Type} (f : Nat → α → α) :
    ∀ (n : Nat) (l : List α), (mapIdxFrom f n l).length = l.length := by
  intro n l
  induction l generalizing n with
  | nil => rfl
  | cons a l ih => simp [mapIdxFrom, ih]

/-- Pointwise value of `mapIdxFrom`. -/
theorem mapIdxFrom_getD {α : Type} (f : Nat → α → α) :
    ∀ (l : List α) (n i : Nat) (d : α),
      (mapIdxFrom f n l).getD i d =
        if i < l.length then f (n + i) (l.getD i d) else d := by
  intro l
  induction l with
  | nil => intro n i d; simp [mapIdxFrom]
  | cons a l ih =>
    intro n i d
    cases i with
    | zero => simp [mapIdxFrom]
    | succ i =>
      simp only [mapIdxFrom, List.getD_cons_succ, List.length_cons]
      rw [ih (n + 1) i d]
      by_cases h : i < l.length
      · rw [if_pos h, if_pos (by omega), show n + 1 + i = n + (i + 1) from by omega]
      · rw [if_neg h, if_neg (by omega)]

/-- A found index is inside the list. -/
theorem findIdx?_lt_length {α : Type} {p : α → Bool} {l : List α} {i : Nat}
    (h : l.findIdx? p = some i) : i < l.length :=
  (List.findIdx?_eq_some_iff_getElem.mp h).1

/-- The predicate holds at a found index. -/
theorem findIdx?_prop {α : Type} {p : α → Bool} {l : List α} {i : Nat} (d : α)
    (h : l.findIdx? p = some i) : p (l.getD i d) = true := by
  rcases List.findIdx?_eq_some_iff_getElem.mp h with ⟨hl, hp, _⟩
  rwa [List.getD_eq_getElem l d hl]

/-- A set whose `getD` with default `[]` is nonempty is a real set of the
cache. -/
theorem lt_sets_length_of_setAt_ne {c : CacheS} {si : Nat}
    (h : 0 < (setAt c si).length) : si < c.sets.length := by
  by_contra hn
  have : setAt c si = [] := by
    unfold setAt
    exact List.getD_eq_default c.sets [] (by omega)
  rw [this] at h
  simp at h

/-- Reading back the block just written by `setBlock`. -/
theorem blockAt_setBlock_self (c : CacheS) (si way : Nat) (b : CacheBlock)
    (hs : si < c.sets.length) (hw : way < (setAt c si).length) :
    blockAt (setBlock c si way b) si way = b := by
  unfold blockAt setBlock setSets setAt
  simp only []
  rw [getD_set_self c.sets si _ [] hs]
  exact getD_set_self (setAt c si) way b _ hw

/-- `setBlock` leaves other ways of the same set unchanged. -/
theorem blockAt_setBlock_ne (c : CacheS) (si way j : Nat) (b : CacheBlock)
    (hj : j ≠ way) : blockAt (setBlock c si way b) si j = blockAt c si j := by
  by_cases hs : si < c.sets.length
  · unfold blockAt setBlock setSets setAt
    simp only []
    rw [getD_set_self c.sets si _ [] hs]
    exact getD_set_ne (setAt c si) way j b _ hj
  · unfold setBlock setSets
    rw [List.set_eq_of_length_le (by omega)]

/-! Claim C8: coherence probes. -/

/-- C8: for every `probe_coherence(addr, is_write_req)` on an L1 cache
that holds the block (in a state satisfying the block invariant that
only MODIFIED blocks are dirty): the probe reports presence; on a write
probe the local copy becomes INVALID; on a read probe a MODIFIED or
EXCLUSIVE copy becomes SHARED; a MODIFIED copy's data is emitted to the
caller; and in every case the resulting local copy is clean. -/
theorem probe_coherence_spec (c : CacheS) (addr : Nat) (is_write_req : Bool)
    (way : Nat)
    (hfind : find_block c (get_index c addr) (get_tag c addr) = some way)
    (hclean : (blockAt c (get_index c addr) way).dirty = true →
      (blockAt c (get_index c addr) way).state = MESI.MODIFIED) :
    (probe_coherence c addr is_write_req).1 = true ∧
    (is_write_req = true →
      (blockAt (probe_coherence c addr is_write_req).2.2.2
        (get_index c addr) way).state = MESI.INVALID) ∧
    (is_write_req = false →
      ((blockAt c (get_index c addr) way).state = MESI.MODIFIED ∨
       (blockAt c (get_index c addr) way).state = MESI.EXCLUSIVE) →
      (blockAt (probe_coherence c addr is_write_req).2.2.2
        (get_index c addr) way).state = MESI.SHARED) ∧
    ((blockAt c (get_index c addr) way).state = MESI.MODIFIED →
      (probe_coherence c addr is_write_req).2.2.1 =
        some (blockAt c (get_index c addr) way).data) ∧
    (blockAt (probe_coherence c addr is_write_req).2.2.2
      (get_index c addr) way).dirty = false := by
  have hw : way < (setAt c (get_index c addr)).length := findIdx?_lt_length hfind
  have hs : get_index c addr < c.sets.length :=
    lt_sets_length_of_setAt_ne (by omega)
  have hp := findIdx?_prop (blockDefault c.block_size) hfind
  rw [Bool.and_eq_true] at hp
  have hnotinv : ¬((blockAt c (get_index c addr) way).state = MESI.INVALID) := by
    intro h
    have h2 := hp.2
    rw [show (setAt c (get_index c addr)).getD way (blockDefault c.block_size) =
      blockAt c (get_index c addr) way from rfl, h] at h2
    simp at h2
  have h1 : (probe_coherence c addr is_write_req).1 = true := by
    unfold probe_coherence
    simp only [hfind]
  have h3 : (probe_coherence c addr is_write_req).2.2.1 =
      (if (blockAt c (get_index c addr) way).state = MESI.MODIFIED then
        some (blockAt c (get_index c addr) way).data
      else none) := by
    unfold probe_coherence
    simp only [hfind]
  have h4 : (probe_coherence c addr is_write_req).2.2.2 =
      setBlock c (get_index c addr) way
        (if is_write_req then
          { blockAt c (get_index c addr) way with
              state := MESI.INVALID, dirty := false }
        else if (blockAt c (get_index c addr) way).state = MESI.MODIFIED ∨
            (blockAt c (get_index c addr) way).state = MESI.EXCLUSIVE then
          { blockAt c (get_index c addr) way with
              state := MESI.SHARED, dirty := false }
        else blockAt c (get_index c addr) way) := by
    unfold probe_coherence
    simp only [hfind]
  refine ⟨h1, ?_, ?_, ?_, ?_⟩
  · intro hwreq
    rw [h4, hwreq, if_pos rfl, blockAt_setBlock_self c _ way _ hs hw]
  · intro hwreq hme
    rw [h4, hwreq]
    simp only [Bool.false_eq_true, if_false]
    rw [if_pos hme, blockAt_setBlock_self c _ way _ hs hw]
  · intro hmod
    rw [h3, if_pos hmod]
  · rw [h4]
    by_cases hwreq : is_write_req = true
    · rw [hwreq, if_pos rfl, blockAt_setBlock_self c _ way _ hs hw]
    · rw [Bool.not_eq_true] at hwreq
      rw [hwreq]
      simp only [Bool.false_eq_true, if_false]
      by_cases hme : (blockAt c (get_index c addr) way).state = MESI.MODIFIED ∨
          (blockAt c (get_index c addr) way).state = MESI.EXCLUSIVE
      · rw [if_pos hme, blockAt_setBlock_self c _ way _ hs hw]
      · rw [if_neg hme, blockAt_setBlock_self c _ way _ hs hw]
        rcases hd : (blockAt c (get_index c addr) way).dirty with _ | _
        · rfl
        · exact absurd (hclean hd) (fun h => hme (Or.inl h))

/-- A one-set one-way cache holding nothing, for the witnesses. -/
def cacheTiny : CacheS :=
  { num_sets := 1, ways := 1, block_size := 4, sets := [[blockDefault 4]] }

/-- A one-set one-way cache holding address 0 in MODIFIED state with
data [1, 2, 3, 4]. -/
def cacheDirtyMod : CacheS :=
  { num_sets := 1, ways := 1, block_size := 4
    sets := [[{ tag := 0, state := MESI.MODIFIED, dirty := true
                lru_count := 0, data := [1, 2, 3, 4] }]] }

/-- Witness for C8 at a concrete cache: a read probe on a dirty MODIFIED
block reports presence, downgrades it to SHARED, emits its data, and
leaves it clean. -/
theorem probe_coherence_spec_witness :
    (probe_coherence cacheDirtyMod 0 false).1 = true ∧
    (blockAt (probe_coherence cacheDirtyMod 0 false).2.2.2 0 0).state =
      MESI.SHARED ∧
    (probe_coherence cacheDirtyMod 0 false).2.2.1 = some [1, 2, 3, 4] ∧
    (blockAt (probe_coherence cacheDirtyMod 0 false).2.2.2 0 0).dirty = false := by
  have h := probe_coherence_spec cacheDirtyMod 0 false 0 (by decide) (by decide)
  exact ⟨h.1, h.2.2.1 rfl (by decide), h.2.2.2.1 (by decide), h.2.2.2.2⟩

/-! Claim C10: fill frame property. -/

/-- C10: `L1Cache::fill(addr, target_state)` changes nothing — neither
the L1 (cache array and MSHR), nor the L2, nor the DRAM queue — unless
the L1's single MSHR is valid and records exactly the block-aligned
address; a fill callback for an address the L1 is not waiting on (the
non-requesting I- or D-cache on an LLC completion, or a fill after the
MSHR was freed) is silently dropped. -/
theorem fill_frame (l1 : L1S) (l2 : L2S) (dram : List DramEnq)
    (now addr : Nat) (st : MESI)
    (h : ¬(l1.mshr.valid = true ∧
      l1.mshr.address = blockAlign l1.cache.block_size addr)) :
    l1_fill l1 l2 dram now addr st = (l1, l2, dram) := by
  unfold l1_fill
  rw [if_neg h]

/-- A minimal L2 for the C10 witness. -/
def l2Tiny : L2S :=
  { cache := cacheTiny
    incl_policy := InclusionPolicy.INCL_INCLUSIVE
    mshrs := List.replicate L2_MSHR_SIZE l2mshrDefault
    req_queue := [] }

/-- An L1 with a free MSHR for the C10 witness. -/
def l1Idle : L1S := { cache := cacheTiny, id := 0, mshr := l1mshrDefault }

/-- Witness for C10: a fill callback arriving at an L1 whose MSHR is
free leaves the L1, the L2 and the DRAM queue unchanged. -/
theorem fill_frame_witness :
    l1_fill l1Idle l2Tiny [] 0 0x40 MESI.EXCLUSIVE = (l1Idle, l2Tiny, []) :=
  fill_frame l1Idle l2Tiny [] 0 0x40 MESI.EXCLUSIVE (by decide)

/-! Claim C9: LRU replacement. -/

/-- Lengths are preserved by `setBlock` on the updated set. -/
theorem setAt_setBlock_length (c : CacheS) (si way : Nat) (b : CacheBlock)
    (hs : si < c.sets.length) :
    (setAt (setBlock c si way b) si).length = (setAt c si).length := by
  unfold setAt setBlock setSets
  simp only []
  rw [getD_set_self c.sets si _ [] hs, List.length_set]
  rfl

/-- Pointwise characterisation of `Cache::update_lru`: the touched way
goes to counter 0, a valid peer strictly below the touched way's
previous counter is incremented, every other way is unchanged. -/
theorem update_lru_spec (c : CacheS) (set_idx way : Nat)
    (hs : set_idx < c.sets.length) (hw : way < (setAt c set_idx).length) :
    blockAt (update_lru c set_idx way) set_idx way =
      { blockAt c set_idx way with lru_count := 0 } ∧
    (∀ i, i ≠ way →
      blockAt (update_lru c set_idx way) set_idx i =
        (if (blockAt c set_idx i).state ≠ MESI.INVALID ∧
            (blockAt c set_idx i).lru_count < (blockAt c set_idx way).lru_count
         then { blockAt c set_idx i with
                  lru_count := (blockAt c set_idx i).lru_count + 1 }
         else blockAt c set_idx i)) := by
  have hsets : ∀ i, blockAt (update_lru c set_idx way) set_idx i =
      (let set := setAt c set_idx
       let current_lru := (set.getD way (blockDefault c.block_size)).lru_count
       let set2 := mapIdxFrom
         (fun i b =>
           if i ≠ way ∧ b.state ≠ MESI.INVALID ∧ b.lru_count < current_lru then
             { b with lru_count := b.lru_count + 1 }
           else b) 0 set
       set2.set way { set2.getD way (blockDefault c.block_size) with
          lru_count := 0 }).getD i (blockDefault c.block_size) := by
    intro i
    unfold update_lru blockAt setSets setAt
    simp only []
    rw [getD_set_self c.sets set_idx _ [] hs]
  have hlen2 : (mapIdxFrom
      (fun i b =>
        if i ≠ way ∧ b.state ≠ MESI.INVALID ∧
            b.lru_count < ((setAt c set_idx).getD way (blockDefault c.block_size)).lru_count then
          { b with lru_count := b.lru_count + 1 }
        else b) 0 (setAt c set_idx)).length = (setAt c set_idx).length :=
    mapIdxFrom_length _ 0 (setAt c set_idx)
  constructor
  · rw [hsets way]
    simp only []
    rw [getD_set_self _ way _ _ (by rw [hlen2]; exact hw)]
    rw [mapIdxFrom_getD _ (setAt c set_idx) 0 way _, if_pos hw]
    rw [if_neg (by
      intro hcon
      exact hcon.1 (by omega))]
    rfl
  · intro i hi
    rw [hsets i]
    simp only []
    rw [getD_set_ne _ way i _ _ hi]
    rw [mapIdxFrom_getD _ (setAt c set_idx) 0 i _]
    by_cases hilen : i < (setAt c set_idx).length
    · rw [if_pos hilen]
      by_cases hc : (blockAt c set_idx i).state ≠ MESI.INVALID ∧
          (blockAt c set_idx i).lru_count < (blockAt c set_idx way).lru_count
      · rw [if_pos hc, if_pos (by exact ⟨by omega, hc.1, hc.2⟩)]
        rfl
      · rw [if_neg hc, if_neg (by
          intro hcon
          exact hc ⟨hcon.2.1, hcon.2.2⟩)]
        rfl
    · rw [if_neg hilen]
      have hdef : blockAt c set_idx i = blockDefault c.block_size := by
        unfold blockAt
        exact List.getD_eq_default _ _ (by omega)
      rw [hdef, if_neg (fun hcon => hcon.1 rfl)]

/-- The victim scan of `Cache::find_victim` (no INVALID way): the fold
returns an in-range way holding the running maximum of the counters. -/
theorem victim_scan_spec (set : List CacheBlock) :
    ∀ (L : List (Nat × CacheBlock)) (acc : Option Nat × Nat),
      (∀ p ∈ L, set[p.1]? = some p.2) →
      (match acc.1 with
        | none => acc.2 = 0
        | some j => ∃ b, set[j]? = some b ∧ b.lru_count = acc.2) →
      (match (L.foldl
          (fun acc p => if p.2.lru_count ≥ acc.2 then (some p.1, p.2.lru_count) else acc)
          acc).1 with
        | none => L = [] ∧ acc.1 = none
        | some j => ∃ b, set[j]? = some b ∧
            b.lru_count = (L.foldl
              (fun acc p => if p.2.lru_count ≥ acc.2 then (some p.1, p.2.lru_count) else acc)
              acc).2 ∧
            (∀ p ∈ L, p.2.lru_count ≤ (L.foldl
              (fun acc p => if p.2.lru_count ≥ acc.2 then (some p.1, p.2.lru_count) else acc)
              acc).2) ∧
            acc.2 ≤ (L.foldl
              (fun acc p => if p.2.lru_count ≥ acc.2 then (some p.1, p.2.lru_count) else acc)
              acc).2) := by
  intro L
  induction L with
  | nil =>
    intro acc _ hacc
    simp only [List.foldl_nil]
    rcases hacc1 : acc.1 with _ | j
    · exact ⟨trivial, rfl⟩
    · rw [hacc1] at hacc
      rcases hacc with ⟨b, hb, hlru⟩
      exact ⟨b, hb, hlru, by simp, Nat.le_refl _⟩
  | cons x L ih =>
    intro acc hmem hacc
    rw [List.foldl_cons]
    by_cases hge : x.2.lru_count ≥ acc.2
    · rw [if_pos hge]
      have hrec := ih (some x.1, x.2.lru_count)
        (fun p hp => hmem p (List.mem_cons_of_mem x hp))
        ⟨x.2, hmem x (List.mem_cons_self x L), rfl⟩
      rcases hres : (L.foldl
          (fun acc p => if p.2.lru_count ≥ acc.2 then (some p.1, p.2.lru_count) else acc)
          (some x.1, x.2.lru_count)).1 with _ | j
      · rw [hres] at hrec
        exact absurd hrec.2 (by simp)
      · rw [hres] at hrec
        rw [hres]
        rcases hrec with ⟨b, hb, hlru, hall, hle⟩
        refine ⟨b, hb, hlru, ?_, by omega⟩
        intro p hp
        rcases List.mem_cons.mp hp with h | h
        · rw [h]; omega
        · exact hall p h
    · rw [if_neg hge]
      have hrec := ih acc (fun p hp => hmem p (List.mem_cons_of_mem x hp)) hacc
      rcases hres : (L.foldl
          (fun acc p => if p.2.lru_count ≥ acc.2 then (some p.1, p.2.lru_count) else acc)
          acc).1 with _ | j
      · rw [hres] at hrec
        rw [hrec.2] at hacc
        -- acc.2 = 0 while x.2.lru_count < acc.2: impossible
        omega
      · rw [hres] at hrec
        rw [hres]
        rcases hrec with ⟨b, hb, hlru, hall, hle⟩
        refine ⟨b, hb, hlru, ?_, hle⟩
        intro p hp
        rcases List.mem_cons.mp hp with h | h
        · rw [h]; omega
        · exact hall p h

/-- If the inserted block enters at counter 0, `update_lru` changes no
peer (no peer counter is below 0). -/
theorem update_lru_after_insert (c : CacheS) (si way : Nat)
    (hs : si < c.sets.length) (hw : way < (setAt c si).length)
    (h0 : (blockAt c si way).lru_count = 0) :
    (blockAt (update_lru c si way) si way).lru_count = 0 ∧
    ∀ i, i ≠ way → blockAt (update_lru c si way) si i = blockAt c si i := by
  obtain ⟨h1, h2⟩ := update_lru_spec c si way hs hw
  refine ⟨by rw [h1], ?_⟩
  intro i hi
  rw [h2 i hi, if_neg]
  intro hcon
  rw [h0] at hcon
  exact Nat.not_lt_zero _ hcon.2

/-- Writing a fresh MRU block into a way and then running `update_lru`
on it (the common tail of `Cache::install`) leaves every other way of
the set untouched. -/
theorem setBlock_then_update (c0 : CacheS) (si w : Nat) (b2 : CacheBlock)
    (hs : si < c0.sets.length) (hw : w < (setAt c0 si).length)
    (h0 : b2.lru_count = 0) :
    (blockAt (update_lru (setBlock c0 si w b2) si w) si w).lru_count = 0 ∧
    ∀ i, i ≠ w →
      blockAt (update_lru (setBlock c0 si w b2) si w) si i = blockAt c0 si i := by
  have hs2 : si < (setBlock c0 si w b2).sets.length := by
    unfold setBlock setSets
    simp only [List.length_set]
    exact hs
  have hw2 : w < (setAt (setBlock c0 si w b2) si).length := by
    rw [setAt_setBlock_length c0 si w b2 hs]
    exact hw
  have hb : blockAt (setBlock c0 si w b2) si w = b2 :=
    blockAt_setBlock_self c0 si w b2 hs hw
  obtain ⟨h1, h2⟩ := update_lru_after_insert (setBlock c0 si w b2) si w hs2 hw2
    (by rw [hb, h0])
  exact ⟨h1, fun i hi => by
    rw [h2 i hi, blockAt_setBlock_ne c0 si w i b2 hi]⟩

/-- C9 (amended): under the LRU policy, `find_victim` chooses an INVALID
way when one exists and otherwise a way whose LRU counter is maximal; on
a hit (`update_lru`), the touched block's counter is set to 0 while
every valid peer whose counter is below the touched block's previous
counter is incremented by one and every other way is unchanged; on an
insertion (`install`), the inserted way enters at counter 0 and no
peer's counter changes (the code zeroes the way before calling
`update_lru`, so no peer is aged by an insertion). -/
theorem lru_policy (c : CacheS) (set_idx : Nat) :
    ((∃ i, i < (setAt c set_idx).length ∧
        (blockAt c set_idx i).state = MESI.INVALID) →
      ∃ j, find_victim c set_idx = some j ∧
        (blockAt c set_idx j).state = MESI.INVALID) ∧
    ((∀ i, i < (setAt c set_idx).length →
        ¬((blockAt c set_idx i).state = MESI.INVALID)) →
      0 < (setAt c set_idx).length →
      ∃ j, find_victim c set_idx = some j ∧ j < (setAt c set_idx).length ∧
        ∀ k, k < (setAt c set_idx).length →
          (blockAt c set_idx k).lru_count ≤ (blockAt c set_idx j).lru_count) ∧
    (∀ way, set_idx < c.sets.length → way < (setAt c set_idx).length →
      blockAt (update_lru c set_idx way) set_idx way =
        { blockAt c set_idx way with lru_count := 0 } ∧
      (∀ i, i ≠ way →
        blockAt (update_lru c set_idx way) set_idx i =
          (if (blockAt c set_idx i).state ≠ MESI.INVALID ∧
              (blockAt c set_idx i).lru_count < (blockAt c set_idx way).lru_count
           then { blockAt c set_idx i with
                    lru_count := (blockAt c set_idx i).lru_count + 1 }
           else blockAt c set_idx i))) ∧
    (∀ addr payload wbclean, set_idx = get_index c addr →
      set_idx < c.sets.length →
      (install c addr payload wbclean).2.1 < (setAt c set_idx).length →
      (blockAt (install c addr payload wbclean).1 set_idx
        (install c addr payload wbclean).2.1).lru_count = 0 ∧
      (∀ i, i ≠ (install c addr payload wbclean).2.1 →
        (blockAt (install c addr payload wbclean).1 set_idx i).lru_count =
          (blockAt c set_idx i).lru_count)) := by
  refine ⟨?_, ?_, ?_, ?_⟩
  · rintro ⟨i, hi, hinv⟩
    have hex : ∃ x, x ∈ setAt c set_idx ∧ decide (x.state = MESI.INVALID) = true := by
      refine ⟨(setAt c set_idx).getD i (blockDefault c.block_size), ?_, ?_⟩
      · rw [List.getD_eq_getElem _ _ hi]
        exact List.getElem_mem hi
      · exact decide_eq_true hinv
    have hfind := List.findIdx?_eq_some_of_exists hex
    refine ⟨(setAt c set_idx).findIdx fun b => decide (b.state = MESI.INVALID),
      ?_, ?_⟩
    · simp only [find_victim, hfind]
    · exact of_decide_eq_true (findIdx?_prop (blockDefault c.block_size) hfind)
  · intro hnoinv hne
    have hnone : (setAt c set_idx).findIdx?
        (fun b => decide (b.state = MESI.INVALID)) = none := by
      rw [List.findIdx?_eq_none_iff]
      intro x hx
      obtain ⟨k, hk, hxk⟩ := List.mem_iff_getElem.mp hx
      have hcast : blockAt c set_idx k = x := by
        unfold blockAt
        rw [List.getD_eq_getElem _ _ hk]
        exact hxk
      apply decide_eq_false
      intro hxinv
      apply hnoinv k hk
      rw [hcast]
      exact hxinv
    have hfv : find_victim c set_idx = ((setAt c set_idx).enum.foldl
        (fun acc p => if p.2.lru_count ≥ acc.2 then (some p.1, p.2.lru_count) else acc)
        ((none : Option Nat), 0)).1 := by
      simp only [find_victim, hnone]
    have hscan := victim_scan_spec (setAt c set_idx) (setAt c set_idx).enum
      ((none : Option Nat), 0)
      (fun p hp => List.mk_mem_enum_iff_getElem?.mp hp)
      rfl
    rcases hres : ((setAt c set_idx).enum.foldl
        (fun acc p => if p.2.lru_count ≥ acc.2 then (some p.1, p.2.lru_count) else acc)
        ((none : Option Nat), 0)).1 with _ | j
    · rw [hres] at hscan
      have henil : (setAt c set_idx).enum = [] := hscan.1
      have hlen : (setAt c set_idx).enum.length = (setAt c set_idx).length :=
        List.enum_length
      rw [henil] at hlen
      simp at hlen
      omega
    · rw [hres] at hscan
      rcases hscan with ⟨b, hb, hlru, hall, _⟩
      have hjlt : j < (setAt c set_idx).length := by
        rcases List.getElem?_eq_some.mp hb with ⟨h, _⟩
        exact h
      have hbj : blockAt c set_idx j = b := by
        unfold blockAt
        rw [List.getD_eq_getElem _ _ hjlt]
        rcases List.getElem?_eq_some.mp hb with ⟨h, hh⟩
        exact hh
      refine ⟨j, by rw [hfv, hres], hjlt, ?_⟩
      intro k hk
      have hmem : (k, (setAt c set_idx)[k]) ∈ (setAt c set_idx).enum := by
        rw [List.mk_mem_enum_iff_getElem?]
        exact List.getElem?_eq_getElem hk
      have hkle := hall (k, (setAt c set_idx)[k]) hmem
      rw [hbj, hlru]
      have hkb : blockAt c set_idx k = (setAt c set_idx)[k] := by
        unfold blockAt
        rw [List.getD_eq_getElem _ _ hk]
      rw [hkb]
      exact hkle
  · intro way hs hw
    exact update_lru_spec c set_idx way hs hw
  · intro addr payload wbclean hsi hslt hwlt
    subst hsi
    rcases hfb : find_block c (get_index c addr) (get_tag c addr) with _ | way
    · simp only [install, hfb] at hwlt ⊢
      have hc1 : (evict c (get_index c addr)
          ((find_victim c (get_index c addr)).getD 0) wbclean).1 =
          setBlock c (get_index c addr) ((find_victim c (get_index c addr)).getD 0)
            { blockAt c (get_index c addr)
                ((find_victim c (get_index c addr)).getD 0) with
                state := MESI.INVALID, dirty := false } := rfl
      have hs0 : get_index c addr < ((evict c (get_index c addr)
          ((find_victim c (get_index c addr)).getD 0) wbclean).1).sets.length := by
        rw [hc1]
        unfold setBlock setSets
        simp only [List.length_set]
        exact hslt
      have hw0 : (find_victim c (get_index c addr)).getD 0 <
          (setAt (evict c (get_index c addr)
            ((find_victim c (get_index c addr)).getD 0) wbclean).1
            (get_index c addr)).length := by
        rw [hc1, setAt_setBlock_length _ _ _ _ hslt]
        exact hwlt
      refine ⟨?_, ?_⟩
      · exact (setBlock_then_update _ _ _ _ hs0 hw0 rfl).1
      · intro i hi
        rw [(setBlock_then_update _ _ _ _ hs0 hw0 rfl).2 i hi, hc1,
          blockAt_setBlock_ne c _ _ i _ hi]
    · simp only [install, hfb] at hwlt ⊢
      refine ⟨?_, ?_⟩
      · exact (setBlock_then_update _ _ _ _ hslt hwlt rfl).1
      · intro i hi
        rw [(setBlock_then_update _ _ _ _ hslt hwlt rfl).2 i hi]

/-- A one-set two-way cache: way 0 EXCLUSIVE with counter 1, way 1
SHARED with counter 0. -/
def cacheTwoWays : CacheS :=
  { num_sets := 1, ways := 2, block_size := 4
    sets := [[{ tag := 0, state := MESI.EXCLUSIVE, dirty := false
                lru_count := 1, data := [0, 0, 0, 0] },
              { tag := 1, state := MESI.SHARED, dirty := false
                lru_count := 0, data := [0, 0, 0, 0] }]] }

/-- Counterexample to C9 as stated: installing address 8 (tag 2) into
`cacheTwoWays` evicts way 0 (previous counter 1); the valid peer way 1
has counter 0 < 1, so the claim requires it to be incremented to 1 —
but after the insertion its counter is still 0. -/
theorem install_no_peer_aging :
    find_victim cacheTwoWays 0 = some 0 ∧
    (blockAt cacheTwoWays 0 0).lru_count = 1 ∧
    (blockAt cacheTwoWays 0 1).state ≠ MESI.INVALID ∧
    (blockAt cacheTwoWays 0 1).lru_count < (blockAt cacheTwoWays 0 0).lru_count ∧
    (blockAt (install cacheTwoWays 8 none false).1 0 1).lru_count = 0 ∧
    (blockAt (install cacheTwoWays 8 none false).1 0 1).lru_count ≠
      (blockAt cacheTwoWays 0 1).lru_count + 1 := by
  decide

/-- Witness for C9 (amended) at a concrete cache: with no INVALID way the
victim has the maximal counter, and a hit on way 1 sets its counter to
0. -/
theorem lru_policy_witness :
    (∃ j, find_victim cacheTwoWays 0 = some j ∧ j < (setAt cacheTwoWays 0).length ∧
      ∀ k, k < (setAt cacheTwoWays 0).length →
        (blockAt cacheTwoWays 0 k).lru_count ≤ (blockAt cacheTwoWays 0 j).lru_count) ∧
    blockAt (update_lru cacheTwoWays 0 1) 0 1 =
      { blockAt cacheTwoWays 0 1 with lru_count := 0 } := by
  have h := lru_policy cacheTwoWays 0
  refine ⟨h.2.1 (by decide) (by decide), ?_⟩
  exact (h.2.2.1 1 (by decide) (by decide)).1

/-! Claim C7: L1 write hits and upgrade misses. -/

/-- Reading back the L1 just written by `setSelf`. -/
theorem selfL1_setSelf (sys : Sys) (cid : Nat) (useD : Bool) (l1 : L1S)
    (h : cid < sys.cores.length) :
    selfL1 (setSelf sys cid useD l1) cid useD = l1 := by
  unfold selfL1 setSelf
  simp only []
  rw [getD_set_self sys.cores cid _ coreDefault h]
  cases useD <;> simp

/-- The snoop loop never touches the requesting core's entry and keeps
the core count. -/
theorem snoopFold_preserves (cid : Nat) (addr : Nat) (w : Bool) :
    ∀ (js : List Nat) (acc : SnoopAcc),
      ((js.foldl (snoopStep cid addr w) acc).cores.getD cid coreDefault =
        acc.cores.getD cid coreDefault) ∧
      ((js.foldl (snoopStep cid addr w) acc).cores.length = acc.cores.length) := by
  intro js
  induction js with
  | nil => intro acc; exact ⟨rfl, rfl⟩
  | cons j js ih =>
    intro acc
    rw [List.foldl_cons]
    obtain ⟨ih1, ih2⟩ := ih (snoopStep cid addr w acc j)
    constructor
    · rw [ih1]
      unfold snoopStep
      by_cases hj : j = cid
      · rw [if_pos hj]
      · rw [if_neg hj]
        simp only []
        exact getD_set_ne acc.cores j cid _ coreDefault (fun h => hj h.symm)
    · rw [ih2]
      unfold snoopStep
      by_cases hj : j = cid
      · rw [if_pos hj]
      · rw [if_neg hj]
        simp only [List.length_set]

/-- The requesting core after `snoopPeers` is its old self. -/
theorem snoopPeers_getD_self (cores : List CoreS) (cid : Nat) (addr : Nat)
    (w : Bool) :
    (snoopPeers cores cid addr w).cores.getD cid coreDefault =
      cores.getD cid coreDefault :=
  (snoopFold_preserves cid addr w (List.range cores.length) _).1

/-- `snoopPeers` preserves the number of cores. -/
theorem snoopPeers_length (cores : List CoreS) (cid : Nat) (addr : Nat)
    (w : Bool) :
    (snoopPeers cores cid addr w).cores.length = cores.length :=
  (snoopFold_preserves cid addr w (List.range cores.length) _).2

/-- The miss-handling region never modifies the requesting L1's cache
array: it only arms the L1 MSHR, probes peers and the L2, and enqueues
DRAM traffic. -/
theorem l1_miss_path_self_cache (sys : Sys) (now cid : Nat) (useD : Bool)
    (addr : Nat) (w : Bool) (hcid : cid < sys.cores.length) :
    (selfL1 (l1_miss_path sys now cid useD addr w) cid useD).cache =
      (selfL1 sys cid useD).cache := by
  unfold l1_miss_path
  simp only []
  split_ifs <;>
    first
    | rfl
    | rw [selfL1_setSelf _ cid useD _
        (by simp only [snoopPeers_length]; exact hcid)]
    | (unfold selfL1
       simp only [snoopPeers_getD_self])

/-- `update_lru` preserves the number of sets. -/
theorem update_lru_sets_length (c : CacheS) (si way : Nat) :
    (update_lru c si way).sets.length = c.sets.length := by
  unfold update_lru setSets
  simp only [List.length_set]

/-- `update_lru` preserves the length of the updated set. -/
theorem setAt_update_lru_length (c : CacheS) (si way : Nat)
    (hs : si < c.sets.length) :
    (setAt (update_lru c si way) si).length = (setAt c si).length := by
  unfold update_lru setSets setAt
  simp only []
  rw [getD_set_self c.sets si _ [] hs]
  rw [List.length_set, mapIdxFrom_length]

/-- C7: for an L1 write access with a free MSHR whose target block is
present: if the block is MODIFIED or EXCLUSIVE the access hits,
updating the replacement metadata (the block becomes MRU), setting the
state to MODIFIED and the dirty flag; if the block is only SHARED the
access does not hit this cycle — it takes the miss-handling path as an
upgrade miss, and the L1 data array is unchanged. -/
theorem l1_write_hit_and_upgrade (sys : Sys) (now cid : Nat) (useD : Bool)
    (addr : Nat) (hcid : cid < sys.cores.length)
    (hmshr : (selfL1 sys cid useD).mshr.valid = false)
    (way : Nat)
    (hfind : find_block (selfL1 sys cid useD).cache
      (get_index (selfL1 sys cid useD).cache addr)
      (get_tag (selfL1 sys cid useD).cache addr) = some way) :
    ((blockAt (selfL1 sys cid useD).cache
        (get_index (selfL1 sys cid useD).cache addr) way).state = MESI.MODIFIED ∨
      (blockAt (selfL1 sys cid useD).cache
        (get_index (selfL1 sys cid useD).cache addr) way).state = MESI.EXCLUSIVE →
      (l1_access sys now cid useD addr true).1 = true ∧
      (blockAt (selfL1 (l1_access sys now cid useD addr true).2 cid useD).cache
        (get_index (selfL1 sys cid useD).cache addr) way).state = MESI.MODIFIED ∧
      (blockAt (selfL1 (l1_access sys now cid useD addr true).2 cid useD).cache
        (get_index (selfL1 sys cid useD).cache addr) way).dirty = true ∧
      (blockAt (selfL1 (l1_access sys now cid useD addr true).2 cid useD).cache
        (get_index (selfL1 sys cid useD).cache addr) way).lru_count = 0) ∧
    ((blockAt (selfL1 sys cid useD).cache
        (get_index (selfL1 sys cid useD).cache addr) way).state = MESI.SHARED →
      (l1_access sys now cid useD addr true).1 = false ∧
      (selfL1 (l1_access sys now cid useD addr true).2 cid useD).cache =
        (selfL1 sys cid useD).cache) := by
  have hw : way < (setAt (selfL1 sys cid useD).cache
      (get_index (selfL1 sys cid useD).cache addr)).length :=
    findIdx?_lt_length hfind
  have hs : get_index (selfL1 sys cid useD).cache addr <
      (selfL1 sys cid useD).cache.sets.length :=
    lt_sets_length_of_setAt_ne (by omega)
  constructor
  · intro hME
    have hacc : l1_access sys now cid useD addr true =
        (true, setSelf sys cid useD
          { selfL1 sys cid useD with
              cache := setBlock
                (update_lru (selfL1 sys cid useD).cache
                  (get_index (selfL1 sys cid useD).cache addr) way)
                (get_index (selfL1 sys cid useD).cache addr) way
                { blockAt
                    (update_lru (selfL1 sys cid useD).cache
                      (get_index (selfL1 sys cid useD).cache addr) way)
                    (get_index (selfL1 sys cid useD).cache addr) way with
                    state := MESI.MODIFIED, dirty := true } }) := by
      simp only [l1_access, hmshr, Bool.false_eq_true, if_false, hfind]
      rw [if_pos hME]
      exact if_pos trivial
    have hs2 : get_index (selfL1 sys cid useD).cache addr <
        (update_lru (selfL1 sys cid useD).cache
          (get_index (selfL1 sys cid useD).cache addr) way).sets.length := by
      rw [update_lru_sets_length]
      exact hs
    have hw2 : way < (setAt (update_lru (selfL1 sys cid useD).cache
        (get_index (selfL1 sys cid useD).cache addr) way)
        (get_index (selfL1 sys cid useD).cache addr)).length := by
      rw [setAt_update_lru_length _ _ _ hs]
      exact hw
    have hsetblock := blockAt_setBlock_self
      (update_lru (selfL1 sys cid useD).cache
        (get_index (selfL1 sys cid useD).cache addr) way)
      (get_index (selfL1 sys cid useD).cache addr) way
      { blockAt (update_lru (selfL1 sys cid useD).cache
          (get_index (selfL1 sys cid useD).cache addr) way)
          (get_index (selfL1 sys cid useD).cache addr) way with
          state := MESI.MODIFIED, dirty := true } hs2 hw2
    have hlru := (update_lru_spec (selfL1 sys cid useD).cache
      (get_index (selfL1 sys cid useD).cache addr) way hs hw).1
    refine ⟨by rw [hacc], ?_, ?_, ?_⟩
    · rw [hacc]
      simp only []
      rw [selfL1_setSelf sys cid useD _ hcid]
      simp only []
      rw [hsetblock]
    · rw [hacc]
      simp only []
      rw [selfL1_setSelf sys cid useD _ hcid]
      simp only []
      rw [hsetblock]
    · rw [hacc]
      simp only []
      rw [selfL1_setSelf sys cid useD _ hcid]
      simp only []
      rw [hsetblock]
      show (blockAt (update_lru (selfL1 sys cid useD).cache
        (get_index (selfL1 sys cid useD).cache addr) way)
        (get_index (selfL1 sys cid useD).cache addr) way).lru_count = 0
      rw [hlru]
  · intro hS
    have hnotME : ¬((blockAt (selfL1 sys cid useD).cache
        (get_index (selfL1 sys cid useD).cache addr) way).state = MESI.MODIFIED ∨
        (blockAt (selfL1 sys cid useD).cache
          (get_index (selfL1 sys cid useD).cache addr) way).state =
            MESI.EXCLUSIVE) := by
      rw [hS]
      rintro (h | h) <;> cases h
    have hacc : l1_access sys now cid useD addr true =
        (false, l1_miss_path sys now cid useD addr true) := by
      simp only [l1_access, hmshr, Bool.false_eq_true, if_false, hfind]
      rw [if_neg hnotME]
      exact if_pos trivial
    refine ⟨by rw [hacc], ?_⟩
    rw [hacc]
    exact l1_miss_path_self_cache sys now cid useD addr true hcid

/-- A one-set one-way cache holding address 0 clean in EXCLUSIVE, for
the C7 witness. -/
def cacheExcl : CacheS :=
  { num_sets := 1, ways := 1, block_size := 4
    sets := [[{ tag := 0, state := MESI.EXCLUSIVE, dirty := false
                lru_count := 0, data := [0, 0, 0, 0] }]] }

/-- A one-core system whose D-cache holds address 0 in EXCLUSIVE, for
the C7 witness. -/
def sysWr : Sys :=
  { cores := [{ icache := l1Idle
                dcache := { cache := cacheExcl, id := 0, mshr := l1mshrDefault } }]
    l2 := l2Tiny
    dram := [] }

/-- Witness for C7: a store to an EXCLUSIVE D-cache block hits, leaving
the block MODIFIED, dirty and most-recently used. -/
theorem l1_write_hit_and_upgrade_witness :
    (l1_access sysWr 0 0 true 0 true).1 = true ∧
    (blockAt (selfL1 (l1_access sysWr 0 0 true 0 true).2 0 true).cache 0 0).state =
      MESI.MODIFIED ∧
    (blockAt (selfL1 (l1_access sysWr 0 0 true 0 true).2 0 true).cache 0 0).dirty =
      true ∧
    (blockAt (selfL1 (l1_access sysWr 0 0 true 0 true).2 0 true).cache 0 0).lru_count =
      0 := by
  have h := (l1_write_hit_and_upgrade sysWr 0 0 true 0 (by decide) (by decide) 0
    (by decide)).1 (Or.inr (by decide))
  exact ⟨h.1, h.2.1, h.2.2.1, h.2.2.2⟩

end CacheM

end MemSim
